import Mathlib

/-
Verification of the Hermes API gateway core against its specification.

The definitions below are a shallow embedding of the Go sources of the
hermes repository: the service record domain model
(hermes-server/core/domain/service/service.go and its identical twin
hermes-server/domain/service/service.go), the service registry
(core.ServiceRegistry and its identical twin services/registry.Registry),
the routing resolver, the reverse proxy header handling, the
authentication middleware and the service HTTP handlers.  Wall-clock
instants are abstracted as natural numbers; every place the Go code calls
time.Now() the embedding takes the instant as an explicit parameter.
Go int fields are embedded as Int (overflow is unreachable for the
quantities involved: failure counters incremented by one and ports).
-/

namespace Hermes

/-- Status mirrors the Go type Status with its three constants
StatusHealthy, StatusUnhealthy and StatusDraining. -/
inductive Status where
  | healthy
  | unhealthy
  | draining
deriving DecidableEq, Repr

/-- Service mirrors the Go struct Service (core/domain/service/service.go).
Metadata is an association list standing for the Go string map. -/
structure Service where
  id : String
  name : String
  host : String
  port : Int
  protocol : String
  healthCheckPath : String
  status : Status
  metadata : List (String × String)
  registeredAt : Nat
  lastCheckedAt : Nat
  failureCount : Int
deriving DecidableEq, Repr

/-- newService mirrors NewService: the generated uuid and the creation
instant are taken as parameters. -/
def newService (id name host : String) (port : Int) (healthCheckPath : String)
    (now : Nat) : Service :=
  { id := id
    name := name
    host := host
    port := port
    protocol := "http"
    healthCheckPath := healthCheckPath
    status := .healthy
    metadata := []
    registeredAt := now
    lastCheckedAt := now
    failureCount := 0 }

/-- baseURL mirrors Service.BaseURL: protocol://host:port. -/
def baseURL (s : Service) : String :=
  s.protocol ++ "://" ++ s.host ++ ":" ++ toString s.port

/-- healthCheckURL mirrors Service.HealthCheckURL. -/
def healthCheckURL (s : Service) : String :=
  baseURL s ++ s.healthCheckPath

/-- markHealthy mirrors Service.MarkHealthy: status healthy, failure count
zero, last checked now. -/
def markHealthy (s : Service) (now : Nat) : Service :=
  { s with status := .healthy, failureCount := 0, lastCheckedAt := now }

/-- markUnhealthy mirrors Service.MarkUnhealthy: increment the failure
count, stamp the check instant, and set status unhealthy once the count
reaches the threshold. -/
def markUnhealthy (s : Service) (threshold : Int) (now : Nat) : Service :=
  let s1 : Service := { s with failureCount := s.failureCount + 1, lastCheckedAt := now }
  if s1.failureCount ≥ threshold then { s1 with status := .unhealthy } else s1

/-- sampleService is a convenience record used by concrete test inputs. -/
def sampleService (id name host : String) (port : Int) (st : Status)
    (failures : Int) : Service :=
  { id := id
    name := name
    host := host
    port := port
    protocol := "http"
    healthCheckPath := "/health"
    status := st
    metadata := []
    registeredAt := 0
    lastCheckedAt := 0
    failureCount := failures }

/-!
The service registry (core.ServiceRegistry, identical to
services/registry.Registry up to error message strings).  The Go id map
is embedded as a list of records, each stored under its own id — the Go
code only ever writes r.services[svc.ID] = svc — and the name index as an
association list from name to the list of records carrying that name.
Both maps hold pointers to the same record objects in Go; the embedding
renders pointer mutation of a record as updating every entry bearing the
record id in both structures.
-/

/-- RegError enumerates the error returns of the registry operations.
The message strings of the core tree are attached by regErrorMessage. -/
inductive RegError where
  | alreadyRegistered
  | duplicateAddress
  | notFound
deriving DecidableEq, Repr

/-- regErrorMessage gives the error strings produced by the
core.ServiceRegistry methods. -/
def regErrorMessage : RegError → String
  | .alreadyRegistered => "service already registered"
  | .duplicateAddress => "service already registered at this address"
  | .notFound => "service not found"

/-- Registry mirrors the two in-memory maps of ServiceRegistry. -/
structure Registry where
  services : List Service
  byName : List (String × List Service)
deriving DecidableEq, Repr

/-- emptyRegistry is the state NewServiceRegistry builds before loading,
and the state it is left with when loading finds no rows. -/
def emptyRegistry : Registry :=
  { services := [], byName := [] }

/-- sameTriple decides whether two records collide on (name, host, port). -/
def sameTriple (a b : Service) : Bool :=
  a.name = b.name && a.host = b.host && a.port = b.port

/-- tripleOf projects the uniqueness key (name, host, port). -/
def tripleOf (s : Service) : String × String × Int :=
  (s.name, s.host, s.port)

/-- assocUpd is the association-list rendering of a Go map write under
key k: rewrite the entry of an existing key, or append a new entry whose
value is init. -/
def assocUpd {α : Type} (h : List (String × α)) (k : String) (f : α → α)
    (init : α) : List (String × α) :=
  if h.any (fun q => q.1 = k) then
    h.map (fun q => if q.1 = k then (q.1, f q.2) else q)
  else
    h ++ [(k, init)]

/-- assocLookup is the association-list rendering of a Go map read. -/
def assocLookup {α : Type} (h : List (String × α)) (k : String) : Option α :=
  match h.find? (fun q => q.1 = k) with
  | some q => some q.2
  | none => none

/-- indexAppend renders the Go statement
r.byName[name] = append(r.byName[name], svc). -/
def indexAppend (idx : List (String × List Service)) (name : String)
    (svc : Service) : List (String × List Service) :=
  assocUpd idx name (fun l => l ++ [svc]) [svc]

/-- indexSet renders a plain Go map assignment r.byName[name] = l. -/
def indexSet (idx : List (String × List Service)) (name : String)
    (l : List Service) : List (String × List Service) :=
  assocUpd idx name (fun _ => l) l

/-- indexGet renders a Go map read r.byName[name], whose zero value for a
missing key is the nil slice. -/
def indexGet (idx : List (String × List Service)) (name : String) : List Service :=
  (assocLookup idx name).getD []

/-- removeFirstById renders the Go loop that deletes the first slice
element whose ID matches and then breaks. -/
def removeFirstById : List Service → String → List Service
  | [], _ => []
  | s :: rest, id => if s.id = id then rest else s :: removeFirstById rest id

/-- findById renders a Go id map read r.services[id]. -/
def findById (l : List Service) (id : String) : Option Service :=
  l.find? (fun s => s.id = id)

/-- register mirrors ServiceRegistry.Register.  The pair returned is the
error value of the Go function together with the registry state it leaves
behind: the Go method mutates nothing before an error return. -/
def register (r : Registry) (svc : Service) : Option RegError × Registry :=
  if (findById r.services svc.id).isSome then
    (some .alreadyRegistered, r)
  else if r.services.any (fun existing => sameTriple existing svc) then
    (some .duplicateAddress, r)
  else
    (none, { services := r.services ++ [svc],
             byName := indexAppend r.byName svc.name svc })

/-- deregister mirrors ServiceRegistry.Deregister: remove the record from
the id map, remove its first occurrence from the name index list, and
drop the name key when its list becomes empty. -/
def deregister (r : Registry) (id : String) : Option RegError × Registry :=
  match findById r.services id with
  | none => (some .notFound, r)
  | some svc =>
    let services1 := r.services.filter (fun s => ¬ s.id = id)
    let instances := indexGet r.byName svc.name
    let idx1 :=
      if instances.any (fun s => s.id = id) then
        indexSet r.byName svc.name (removeFirstById instances id)
      else
        r.byName
    let idx2 :=
      if indexGet idx1 svc.name = [] then
        idx1.filter (fun q => ¬ q.1 = svc.name)
      else
        idx1
    (none, { services := services1, byName := idx2 })

/-- setStatus renders the field assignment svc.Status = status. -/
def setStatus (s : Service) (st : Status) : Service :=
  { s with status := st }

/-- updateStatus mirrors ServiceRegistry.UpdateStatus.  In Go the record
object is shared between the id map and the name index, so assigning its
status field updates both views; the embedding updates every entry whose
id matches. -/
def updateStatus (r : Registry) (id : String) (st : Status) :
    Option RegError × Registry :=
  if (findById r.services id).isSome then
    (none,
      { services := r.services.map (fun s => if s.id = id then setStatus s st else s)
        byName := r.byName.map
          (fun q => (q.1, q.2.map (fun s => if s.id = id then setStatus s st else s))) })
  else
    (some .notFound, r)

/-- getHealthy mirrors ServiceRegistry.GetHealthy: the healthy subset of
the name index entry. -/
def getHealthy (r : Registry) (name : String) : List Service :=
  (indexGet r.byName name).filter (fun s => s.status = Status.healthy)

/-- listServices mirrors ServiceRegistry.List: a snapshot of the id map
values. -/
def listServices (r : Registry) : List Service :=
  r.services

/-- loadStep renders one row insertion of loadFromDatabase:
r.services[svc.ID] = svc followed by the name index append.  The map
assignment overwrites an existing id entry. -/
def loadStep (r : Registry) (svc : Service) : Registry :=
  { services :=
      if r.services.any (fun s => s.id = svc.id) then
        r.services.map (fun s => if s.id = svc.id then svc else s)
      else
        r.services ++ [svc]
    byName := indexAppend r.byName svc.name svc }

/-- newRegistry mirrors NewServiceRegistry: start empty, then insert every
row loaded from the services table in order. -/
def newRegistry (rows : List Service) : Registry :=
  rows.foldl loadStep emptyRegistry

/-- TriplesUnique states property P1: the (name, host, port) triples of
the resident records are pairwise distinct. -/
def TriplesUnique (r : Registry) : Prop :=
  r.services.Pairwise (fun a b => tripleOf a ≠ tripleOf b)

/-- svcA, svcB, svcDup are concrete records used by the witnesses:
svcA and svcB share a name but differ in host; svcDup carries the triple
of svcA under a fresh id. -/
def svcA : Service := sampleService "id-a" "a" "h" 1 .healthy 0

def svcB : Service := sampleService "id-b" "a" "h2" 1 .healthy 0

def svcDup : Service := sampleService "id-c" "a" "h" 1 .healthy 0

/-- regTwo holds two records sharing the name a on hosts h and h2. -/
def regTwo : Registry :=
  { services := [svcA, svcB], byName := [("a", [svcA, svcB])] }

/-- svcC carries the triple of svcB under the fresh id of svcDup. -/
def svcC : Service := sampleService "id-c" "a" "h2" 1 .healthy 0

/-!
Service registration HTTP handlers (handler/service/handler.go) and the
routing resolver (services/routing/routing.go, identical to
core.RoutingService up to the error string).
-/

/-- RegisterRequest mirrors the handler RegisterRequest payload after a
successful JSON bind.  A missing protocol or metadata key binds to the
zero value. -/
structure RegisterRequest where
  name : String
  host : String
  port : Int
  healthCheckPath : String
  protocol : String
  metadata : Option (List (String × String))
deriving DecidableEq, Repr

/-- duplicateCheckLiteral is the string handleRegisterService and
handleSelfRegister compare the register error message against when
deciding to answer 409 Conflict. -/
def duplicateCheckLiteral : String :=
  "service with this name, host, and port already exists"

/-- registerFailureStatus renders the error dispatch of the registration
handlers: 409 when the error message equals duplicateCheckLiteral,
otherwise 400. -/
def registerFailureStatus (e : RegError) : Nat :=
  if regErrorMessage e = duplicateCheckLiteral then 409 else 400

/-- buildServiceFromRegisterRequest renders the record construction of
handleRegisterService: NewService, the optional protocol and metadata
overrides, then status unhealthy when the initial probe failed. -/
def buildServiceFromRegisterRequest (req : RegisterRequest) (freshId : String)
    (now : Nat) (probeOk : Bool) : Service :=
  let svc := newService freshId req.name req.host req.port req.healthCheckPath now
  let svc := if req.protocol = "" then svc else { svc with protocol := req.protocol }
  let svc := match req.metadata with
    | some m => { svc with metadata := m }
    | none => svc
  if probeOk then svc else { svc with status := .unhealthy }

/-- handleRegisterService mirrors the admin registration endpoint after a
successful bind: the result is the HTTP status paired with the registry
state left behind.  freshId and now stand for the generated uuid and the
clock; probeOk for the outcome of the initial health probe, which never
blocks registration. -/
def handleRegisterService (r : Registry) (req : RegisterRequest)
    (freshId : String) (now : Nat) (probeOk : Bool) : Nat × Registry :=
  let svc := buildServiceFromRegisterRequest req freshId now probeOk
  match register r svc with
  | (none, r2) => (201, r2)
  | (some e, _) => (registerFailureStatus e, r)

/-- reqDup asks to register the triple of svcA again. -/
def reqDup : RegisterRequest :=
  { name := "a", host := "h", port := 1, healthCheckPath := "/health",
    protocol := "", metadata := none }

/-- regOne is the one-record state holding svcA. -/
def regOne : Registry :=
  { services := [svcA], byName := [("a", [svcA])] }

/-- routeToService mirrors RouteToService
(services/routing/routing.go): ok carries the target URL handed to the
proxy ForwardToURL call; error means the proxy is never invoked. -/
def routeToService (r : Registry) (name path : String) : Except String String :=
  match getHealthy r name with
  | [] => .error ("no healthy instances available for service: " ++ name)
  | target :: _ => .ok (baseURL target ++ path)

/-!
Self-registration (handleSelfRegister).  The request headers
X-Forwarded-For and X-Real-IP are passed as strings, the empty string
standing for an absent header exactly as c.GetHeader does, and the
transport remote address as a string.
-/

/-- SelfRegisterRequest mirrors the self-registration payload after a
successful bind: host and port carry their zero values when absent. -/
structure SelfRegisterRequest where
  name : String
  host : String
  port : Int
  healthCheckPath : String
  protocol : String
  metadata : Option (List (String × String))
deriving DecidableEq, Repr

/-- isSpaceChar decides the white space set of strings.TrimSpace for the
ASCII range: space, tab, newline, vertical tab, form feed, carriage
return. -/
def isSpaceChar (c : Char) : Bool :=
  c = ' ' || c = '\t' || c = '\n' || c = '\r' || c.toNat = 11 || c.toNat = 12

/-- trimSpaceChars renders strings.TrimSpace on a character list. -/
def trimSpaceChars (l : List Char) : List Char :=
  ((l.dropWhile isSpaceChar).reverse.dropWhile isSpaceChar).reverse

/-- firstForwardedToken renders strings.Split(xff, ",") followed by
strings.TrimSpace on the first element: the first element of the split is
the prefix of the string up to its first comma. -/
def firstForwardedToken (xff : String) : String :=
  ⟨trimSpaceChars (xff.data.takeWhile (fun c => ¬ c = ','))⟩

/-- splitLastColon splits a character list at its last colon. -/
def splitLastColon : List Char → Option (List Char × List Char)
  | [] => none
  | c :: rest =>
    match splitLastColon rest with
    | some (a, b) => some (c :: a, b)
    | none => if c = ':' then some ([], rest) else none

/-- stripBrackets removes one matching pair of square brackets around an
IPv6 literal. -/
def stripBrackets (l : List Char) : List Char :=
  match l with
  | '[' :: rest => if rest.getLast? = some ']' then rest.dropLast else l
  | _ => l

/-- remoteAddrHost models the gin ClientIP fallback used when neither
X-Forwarded-For nor X-Real-IP is present.  Modelled from the spec: the
gin library call c.ClientIP() is not part of this repository; with no
forwarding headers it returns the transport-level remote address with
its port segment excluded (spec auto-detection rules and scenario S7),
which gin computes by splitting host:port at the last colon. -/
def remoteAddrHost (remoteAddr : String) : String :=
  match splitLastColon (trimSpaceChars remoteAddr.data) with
  | none => ""
  | some (host, _) => ⟨stripBrackets host⟩

/-- autoDetectHost renders the client address block of handleSelfRegister:
the gin client address, overridden by the first X-Forwarded-For token
when that header is present, else by X-Real-IP when present. -/
def autoDetectHost (xff xri remoteAddr : String) : String :=
  if ¬ xff = "" then firstForwardedToken xff
  else if ¬ xri = "" then xri
  else remoteAddrHost remoteAddr

/-- buildServiceFromSelfRegister renders the record construction of
handleSelfRegister: the protocol default, NewService, the metadata
override, then status unhealthy when the initial probe failed. -/
def buildServiceFromSelfRegister (req : SelfRegisterRequest) (freshId : String)
    (now : Nat) (probeOk : Bool) : Service :=
  let protocol := if req.protocol = "" then "http" else req.protocol
  let svc := newService freshId req.name req.host req.port req.healthCheckPath now
  let svc := { svc with protocol := protocol }
  let svc := match req.metadata with
    | some m => { svc with metadata := m }
    | none => svc
  if probeOk then svc else { svc with status := .unhealthy }

/-- portMissingMessage is the 400 body produced when the port cannot be
auto-detected. -/
def portMissingMessage : String :=
  "port must be provided (cannot auto-detect service port)"

/-- selfRegisterFinish renders the tail of handleSelfRegister once host
and port are settled: build the record, register it, and dispatch the
outcome to an HTTP status and error body field, empty on success. -/
def selfRegisterFinish (r : Registry) (req : SelfRegisterRequest)
    (freshId : String) (now : Nat) (probeOk : Bool) : (Nat × String) × Registry :=
  let svc := buildServiceFromSelfRegister req freshId now probeOk
  match register r svc with
  | (none, r2) => ((201, ""), r2)
  | (some e, _) => ((registerFailureStatus e, regErrorMessage e), r)

/-- handleSelfRegister mirrors the public self-registration endpoint
after a successful bind.  The result is the HTTP status paired with the
error body field, the empty string on success, together with the registry
state left behind. -/
def handleSelfRegister (r : Registry) (req : SelfRegisterRequest)
    (xff xri remoteAddr freshId : String) (now : Nat) (probeOk : Bool) :
    (Nat × String) × Registry :=
  if req.host = "" ∨ req.port = 0 then
    let detectedHost :=
      if req.host = "" then autoDetectHost xff xri remoteAddr else req.host
    if req.port = 0 then ((400, portMissingMessage), r)
    else selfRegisterFinish r { req with host := detectedHost } freshId now probeOk
  else
    selfRegisterFinish r req freshId now probeOk

/-- reqSelf is the S7 payload: name x, no host, port nine, path /h. -/
def reqSelf : SelfRegisterRequest :=
  { name := "x", host := "", port := 9, healthCheckPath := "/h",
    protocol := "", metadata := none }

/-!
Authentication middleware (middleware/auth.go, identical in both package
trees) and the health checker probe handling (core/health_checker.go).
-/

/-- AegisUser mirrors the user payload of the Aegis validation response. -/
structure AegisUser where
  id : String
  subject : String
  roles : List String
  permissions : List String
deriving DecidableEq, Repr

/-- ValidateTokenResponse mirrors the decoded Aegis validation response.
The Go user field is a pointer the middleware dereferences only after
valid is true; it is embedded as an always-present record. -/
structure ValidateTokenResponse where
  valid : Bool
  error : String
  user : AegisUser
deriving DecidableEq, Repr

/-- MiddlewareResult: reject renders c.JSON plus c.Abort with the status
and the error body field; allow renders c.Next with the context values
the middleware stores. -/
inductive MiddlewareResult where
  | reject (status : Nat) (errorMessage : String)
  | allow (userId subject : String) (roles permissions : List String)
deriving DecidableEq, Repr

/-- splitFirstSpace splits a character list at its first space. -/
def splitFirstSpace : List Char → Option (List Char × List Char)
  | [] => none
  | c :: rest =>
    if c = ' ' then some ([], rest)
    else
      match splitFirstSpace rest with
      | none => none
      | some (a, b) => some (c :: a, b)

/-- splitN2 renders strings.SplitN(s, space, 2). -/
def splitN2 (s : String) : List String :=
  match splitFirstSpace s.data with
  | none => [s]
  | some (a, b) => [⟨a⟩, ⟨b⟩]

/-- authMiddleware mirrors AuthMiddleware.  The Authorization header is
the empty string when absent, exactly as c.GetHeader reports it, and
validateResult stands for the outcome of the ValidateToken call on the
extracted token, with error meaning a transport or decoding failure. -/
def authMiddleware (authHeader : String)
    (validateResult : Except String ValidateTokenResponse) : MiddlewareResult :=
  if authHeader = "" then .reject 401 "missing authorization token"
  else
    let parts := splitN2 authHeader
    if ¬ (parts.length = 2 ∧ parts.headD "" = "Bearer") then
      .reject 401 "invalid authorization header"
    else
      match validateResult with
      | .error _ => .reject 500 "authentication service unavailable"
      | .ok resp =>
        if ¬ resp.valid then .reject 401 "invalid or expired token"
        else .allow resp.user.id resp.user.subject resp.user.roles resp.user.permissions

/-- requireAdmin mirrors RequireAdmin in the situation the admin routes
install it, after a successful authMiddleware allow whose context roles
are present and well typed: none means fall through to the handler. -/
def requireAdmin (roles : List String) : Option (Nat × String) :=
  if roles.contains "admin" then none else some (403, "admin access required")

/-- adminGate chains authMiddleware and RequireAdmin the way every admin
endpoint installs them. -/
def adminGate (authHeader : String)
    (validateResult : Except String ValidateTokenResponse) : MiddlewareResult :=
  match authMiddleware authHeader validateResult with
  | .reject st msg => .reject st msg
  | .allow uid subj roles perms =>
    match requireAdmin roles with
    | some (st, msg) => .reject st msg
    | none => .allow uid subj roles perms

/-- ProbeOutcome abstracts one health probe HTTP attempt: request
construction failure, transport failure, or a response with its status
code and the body read under the ten KiB cap. -/
inductive ProbeOutcome where
  | requestError (msg : String)
  | transportError (msg : String)
  | response (code : Int) (body : String)
deriving DecidableEq, Repr

/-- LogEntry mirrors one health check audit row as handed to
healthLogRepo.Create. -/
structure LogEntry where
  serviceId : String
  status : String
  errorMessage : String
  responseBody : String
  responseTimeMs : Int
deriving DecidableEq, Repr

/-- handleFailure mirrors HealthChecker.handleFailure acting on the
record: MarkUnhealthy with the configured threshold.  The follow-up
registry UpdateStatus call persists the resulting status value. -/
def handleFailure (svc : Service) (threshold : Int) (now : Nat) : Service :=
  markUnhealthy svc threshold now

/-- checkProbe mirrors HealthChecker.check once the probe outcome is in
hand: the mutated record together with the audit row logged for it. -/
def checkProbe (svc : Service) (threshold : Int) (now : Nat) (elapsedMs : Int)
    (outcome : ProbeOutcome) : Service × LogEntry :=
  match outcome with
  | .requestError msg =>
    (handleFailure svc threshold now,
      { serviceId := svc.id, status := "error", errorMessage := msg,
        responseBody := "", responseTimeMs := 0 })
  | .transportError msg =>
    (handleFailure svc threshold now,
      { serviceId := svc.id, status := "unhealthy", errorMessage := msg,
        responseBody := "", responseTimeMs := elapsedMs })
  | .response code body =>
    if 200 ≤ code ∧ code < 300 then
      (markHealthy svc now,
        { serviceId := svc.id, status := "healthy", errorMessage := "",
          responseBody := body, responseTimeMs := elapsedMs })
    else
      (handleFailure svc threshold now,
        { serviceId := svc.id, status := "unhealthy",
          errorMessage := "HTTP " ++ toString code,
          responseBody := body, responseTimeMs := elapsedMs })

/-- respAdmin is a valid verdict carrying the admin role; respUser a
valid verdict without it; respExpired an invalid verdict. -/
def respAdmin : ValidateTokenResponse :=
  { valid := true, error := "",
    user := { id := "u1", subject := "alice", roles := ["admin"], permissions := [] } }

def respUser : ValidateTokenResponse :=
  { valid := true, error := "",
    user := { id := "u2", subject := "bob", roles := ["viewer"], permissions := [] } }

def respExpired : ValidateTokenResponse :=
  { valid := false, error := "expired",
    user := { id := "", subject := "", roles := [], permissions := [] } }

/-- svcDraining is a record in the draining state. -/
def svcDraining : Service := sampleService "id-d" "d" "h" 1 .draining 0

/-!
Reverse proxy header handling (core/proxy.go createProxyRequest and
isHopByHopHeader).  Go http.Header is embedded as an association list
from key to value list; Header.Add and Header.Set canonicalise their key
through textproto CanonicalMIMEHeaderKey, which is embedded below.
-/

/-- HeaderMap embeds Go http.Header. -/
abbrev HeaderMap := List (String × List String)

/-- toLowerChars and lowerString render strings.ToLower for the ASCII
range, the only range the hop-by-hop names occupy. -/
def toLowerChars (l : List Char) : List Char :=
  l.map Char.toLower

def lowerString (s : String) : String :=
  ⟨toLowerChars s.data⟩

/-- hopByHopHeaders is the list of isHopByHopHeader verbatim. -/
def hopByHopHeaders : List String :=
  ["Connection", "Keep-Alive", "Proxy-Authenticate", "Proxy-Authorization",
   "Te", "Trailers", "Transfer-Encoding", "Upgrade"]

/-- isHopByHopHeader mirrors the Go function: lower the argument once and
compare it against the lowered form of each listed name. -/
def isHopByHopHeader (header : String) : Bool :=
  let lowered := lowerString header
  hopByHopHeaders.any (fun h => lowerString h = lowered)

/-- validHeaderFieldChar decides the token character table of Go
net/textproto: digits, letters, and the characters with codes 33, 35-39,
42, 43, 45, 46, 94, 95, 96, 124, 126. -/
def validHeaderFieldChar (c : Char) : Bool :=
  let n := c.toNat
  (48 ≤ n && n ≤ 57) || (65 ≤ n && n ≤ 90) || (97 ≤ n && n ≤ 122) ||
  n = 33 || (35 ≤ n && n ≤ 39) || n = 42 || n = 43 || n = 45 || n = 46 ||
  n = 94 || n = 95 || n = 96 || n = 124 || n = 126

/-- canonicalChars renders the rewrite loop of CanonicalMIMEHeaderKey:
uppercase the first letter and every letter after a hyphen, lowercase the
rest. -/
def canonicalChars : Bool → List Char → List Char
  | _, [] => []
  | upper, c :: rest =>
    let c2 := if upper then c.toUpper else c.toLower
    c2 :: canonicalChars (c2 == '-') rest

/-- canonicalMIMEHeaderKey mirrors textproto CanonicalMIMEHeaderKey: a
key containing a character outside the token table is returned
unchanged. -/
def canonicalMIMEHeaderKey (s : String) : String :=
  if s.data.all validHeaderFieldChar then ⟨canonicalChars true s.data⟩ else s

/-- headerAdd mirrors Header.Add: canonicalise the key and append the
value to its list. -/
def headerAdd (h : HeaderMap) (key value : String) : HeaderMap :=
  assocUpd h (canonicalMIMEHeaderKey key) (fun l => l ++ [value]) [value]

/-- headerSet mirrors Header.Set: canonicalise the key and replace its
list with the one-element list. -/
def headerSet (h : HeaderMap) (key value : String) : HeaderMap :=
  assocUpd h (canonicalMIMEHeaderKey key) (fun _ => [value]) [value]

/-- InboundRequest carries the parts of the inbound http.Request that
createProxyRequest reads. -/
structure InboundRequest where
  method : String
  header : HeaderMap
  remoteAddr : String
  scheme : String
  host : String
deriving DecidableEq, Repr

/-- copyStep processes one inbound header entry of the copy loop of
createProxyRequest: hop-by-hop keys are skipped, every other key has each
of its values added. -/
def copyStep (acc : HeaderMap) (kv : String × List String) : HeaderMap :=
  if isHopByHopHeader kv.1 then acc
  else kv.2.foldl (fun acc2 v => headerAdd acc2 kv.1 v) acc

/-- copyHeaders renders the header copy loop of createProxyRequest over a
fresh outbound request. -/
def copyHeaders (entries : HeaderMap) : HeaderMap :=
  entries.foldl copyStep []

/-- createProxyRequestHeaders renders the header portion of
createProxyRequest: the copy loop followed by the three forwarding
header sets, the first and third guarded on non-empty values. -/
def createProxyRequestHeaders (original : InboundRequest) : HeaderMap :=
  let h := copyHeaders original.header
  let h := if ¬ original.remoteAddr = "" then headerSet h "X-Forwarded-For" original.remoteAddr else h
  let h := headerSet h "X-Forwarded-Proto" original.scheme
  if ¬ original.host = "" then headerSet h "X-Forwarded-Host" original.host else h

/-- KeysNotHop states that no key of the header map is hop-by-hop. -/
def KeysNotHop (h : HeaderMap) : Prop :=
  ∀ kv ∈ h, isHopByHopHeader kv.1 = false

/-- reqXFPOverwrite carries an inbound X-Forwarded-Proto header over an
http request. -/
def reqXFPOverwrite : InboundRequest :=
  { method := "GET"
    header := [("X-Forwarded-Proto", ["https"])]
    remoteAddr := ""
    scheme := "http"
    host := "" }

/-- reqS5 is the scenario S5 inbound request. -/
def reqS5 : InboundRequest :=
  { method := "GET"
    header := [("Authorization", ["Bearer T"]), ("Connection", ["close"]),
               ("X-Custom", ["ok"])]
    remoteAddr := "1.2.3.4:5555"
    scheme := "http"
    host := "example.com" }

/-!
Index consistency of the registry: the name index always agrees with the
id map.  In Go both maps hold pointers to the same record objects, so a
record filed in the index is literally the record stored under its id;
on the value-level embedding this reads as equality of the records.
-/

/-- RegistryInv is the implicit index-consistency invariant: ids are
unique, index keys are unique, no index entry is empty, every indexed
record is filed under its own name and is the record the id map stores
for its id, and every stored record appears exactly once in the index
list of its own name. -/
def RegistryInv (r : Registry) : Prop :=
  (r.services.map (fun s => s.id)).Nodup ∧
  (r.byName.map Prod.fst).Nodup ∧
  (∀ q ∈ r.byName, ¬ q.2 = []) ∧
  (∀ q ∈ r.byName, ∀ s ∈ q.2, s.name = q.1) ∧
  (∀ q ∈ r.byName, ∀ s ∈ q.2, findById r.services s.id = some s) ∧
  (∀ svc ∈ r.services, ∃ l, assocLookup r.byName svc.name = some l ∧
    l.countP (fun s => s.id = svc.id) = 1)

/-! Theorems. -/

/-- C2 counterexample: a record that is already unhealthy with failure
count zero stays unhealthy after markUnhealthy with threshold five, even
though its failure count, one, is below the threshold.  This state is
reachable: handleRegisterService stores a record as unhealthy with
failure count zero when the initial probe fails. -/
theorem markUnhealthy_iff_counterexample :
    (markUnhealthy (sampleService "a" "svc" "h" 1 .unhealthy 0) 5 7).status = .unhealthy ∧
    ¬ ((markUnhealthy (sampleService "a" "svc" "h" 1 .unhealthy 0) 5 7).failureCount ≥ 5) := by
  decide

/-- C2 (amended): immediately after markUnhealthy with threshold T the
failure count has been incremented by one and the check instant updated,
and the status is unhealthy exactly when the new failure count is at
least T or the record was already unhealthy before the call. -/
theorem markUnhealthy_status_characterization (s : Service) (T : Int) (now : Nat) :
    ((markUnhealthy s T now).status = .unhealthy ↔
      ((markUnhealthy s T now).failureCount ≥ T ∨ s.status = .unhealthy)) ∧
    (markUnhealthy s T now).failureCount = s.failureCount + 1 ∧
    (markUnhealthy s T now).lastCheckedAt = now := by
  by_cases h : s.failureCount + 1 ≥ T
  · simp [markUnhealthy, h]
  · cases hs : s.status <;> simp [markUnhealthy, h, hs]

theorem sameTriple_iff (a b : Service) :
    sameTriple a b = true ↔ tripleOf a = tripleOf b := by
  simp [sameTriple, tripleOf, Prod.ext_iff, and_assoc]

theorem tripleOf_setStatus (s : Service) (st : Status) :
    tripleOf (setStatus s st) = tripleOf s := by
  simp [setStatus, tripleOf]

theorem tripleOf_statusUpdateFun (id : String) (st : Status) (s : Service) :
    tripleOf (if s.id = id then setStatus s st else s) = tripleOf s := by
  by_cases h : s.id = id <;> simp [h, tripleOf_setStatus]

/-- C1: the registry uniqueness invariant.  The empty initial state has
pairwise distinct (name, host, port) triples; register, deregister and
updateStatus preserve this; and register rejects every record whose id or
triple collides with a resident record. -/
theorem registry_uniqueness_invariant :
    TriplesUnique emptyRegistry ∧
    (∀ r svc, TriplesUnique r → TriplesUnique (register r svc).2) ∧
    (∀ r svc, (∃ e ∈ r.services, e.id = svc.id ∨ tripleOf e = tripleOf svc) →
      (register r svc).1 ≠ none) ∧
    (∀ r id, TriplesUnique r → TriplesUnique (deregister r id).2) ∧
    (∀ r id st, TriplesUnique r → TriplesUnique (updateStatus r id st).2) := by
  refine ⟨?_, ?_, ?_, ?_, ?_⟩
  · simp [TriplesUnique, emptyRegistry]
  · intro r svc h
    unfold register
    by_cases h1 : (findById r.services svc.id).isSome
    · simpa [h1] using h
    · by_cases h2 : r.services.any (fun existing => sameTriple existing svc) = true
      · simpa [h1, h2] using h
      · simp only [h1, h2, Bool.false_eq_true, if_false, if_neg]
        simp only [TriplesUnique] at h ⊢
        rw [List.pairwise_append]
        refine ⟨h, by simp, ?_⟩
        intro a ha b hb
        simp only [List.mem_singleton] at hb
        intro hcontra
        rw [hb] at hcontra
        have hno : ∀ e ∈ r.services, ¬ sameTriple e svc = true := by
          simpa [List.any_eq_true] using h2
        exact hno a ha ((sameTriple_iff a svc).mpr hcontra)
  · intro r svc hex
    unfold register
    by_cases h1 : (findById r.services svc.id).isSome
    · simp [h1]
    · by_cases h2 : r.services.any (fun existing => sameTriple existing svc) = true
      · simp [h1, h2]
      · exfalso
        obtain ⟨e, he, hcol⟩ := hex
        cases hcol with
        | inl hid =>
          have : (findById r.services svc.id).isSome := by
            rw [findById, List.find?_isSome]
            exact ⟨e, he, by simp [hid]⟩
          exact h1 this
        | inr htr =>
          have : r.services.any (fun existing => sameTriple existing svc) = true := by
            rw [List.any_eq_true]
            exact ⟨e, he, (sameTriple_iff e svc).mpr htr⟩
          exact h2 this
  · intro r id h
    unfold deregister
    cases hfind : findById r.services id with
    | none => simpa using h
    | some svc =>
      simp only [TriplesUnique] at h ⊢
      exact h.sublist (List.filter_sublist _)
  · intro r id st h
    unfold updateStatus
    by_cases h1 : (findById r.services id).isSome
    · simp only [h1, if_true]
      simp only [TriplesUnique] at h ⊢
      rw [List.pairwise_map]
      exact h.imp (fun {a b} hab => by
        rw [tripleOf_statusUpdateFun, tripleOf_statusUpdateFun]; exact hab)
    · simpa [h1] using h

/-- Witness for C1: the preservation clause applied at a concrete state
holding svcA, registering svcB which shares the name but not the host. -/
theorem registry_uniqueness_invariant_witness :
    TriplesUnique (register { services := [svcA], byName := [("a", [svcA])] } svcB).2 :=
  registry_uniqueness_invariant.2.1 { services := [svcA], byName := [("a", [svcA])] } svcB
    (by simp [TriplesUnique])

/-- C4 counterexample: in a state holding a@h:1 and a@h2:1, registering
the duplicate svcDup fails and changes nothing, but the subsequent
register of svcC, which has the same name as svcDup and a different
host, also fails, because its triple collides with the resident svcB.
The claim asserts that any same-name different-host register succeeds. -/
theorem register_atomicity_counterexample :
    (register regTwo svcDup).1 = some RegError.duplicateAddress ∧
    (register regTwo svcDup).2 = regTwo ∧
    svcC.name = svcDup.name ∧ ¬ svcC.host = svcDup.host ∧
    ¬ (register (register regTwo svcDup).2 svcC).1 = none := by
  decide

/-- C4 (amended): register is atomic on duplicate-address failure — when
the triple of the argument duplicates a resident record and its id is
fresh, register reports duplicateAddress and returns the state unchanged,
so listServices is unchanged; and a subsequent register of a record with
the same name and a different host succeeds provided its id is fresh and
no resident record carries its triple. -/
theorem register_duplicate_address_atomic (r : Registry) (svc : Service)
    (hid : ∀ e ∈ r.services, e.id ≠ svc.id)
    (htr : ∃ e ∈ r.services, tripleOf e = tripleOf svc) :
    (register r svc).1 = some RegError.duplicateAddress ∧
    (register r svc).2 = r ∧
    listServices (register r svc).2 = listServices r ∧
    (∀ svc2, svc2.name = svc.name → svc2.host ≠ svc.host →
      (∀ e ∈ r.services, e.id ≠ svc2.id) →
      (∀ e ∈ r.services, tripleOf e ≠ tripleOf svc2) →
      (register (register r svc).2 svc2).1 = none) := by
  have h1 : findById r.services svc.id = none := by
    rw [findById, List.find?_eq_none]
    intro e he
    simp [hid e he]
  have h2 : r.services.any (fun existing => sameTriple existing svc) = true := by
    rw [List.any_eq_true]
    obtain ⟨e, he, htr⟩ := htr
    exact ⟨e, he, (sameTriple_iff e svc).mpr htr⟩
  have hreg : register r svc = (some RegError.duplicateAddress, r) := by
    unfold register
    simp [h1, h2]
  refine ⟨by rw [hreg], by rw [hreg], by rw [hreg], ?_⟩
  intro svc2 _ _ hid2 htr2
  rw [hreg]
  have g1 : findById r.services svc2.id = none := by
    rw [findById, List.find?_eq_none]
    intro e he
    simp [hid2 e he]
  have g2 : r.services.any (fun existing => sameTriple existing svc2) = false := by
    rw [List.any_eq_false]
    intro e he
    intro hcontra
    exact htr2 e he ((sameTriple_iff e svc2).mp hcontra)
  unfold register
  simp [g1, g2]

/-- Witness for C4 at the S4 scenario: one resident record a@h:1, the
duplicate fails, and a@h2:1 with a fresh id succeeds afterwards. -/
theorem register_duplicate_address_atomic_witness :
    (register { services := [svcA], byName := [("a", [svcA])] } svcDup).1 =
      some RegError.duplicateAddress ∧
    (register (register { services := [svcA], byName := [("a", [svcA])] } svcDup).2 svcB).1 =
      none := by
  have h := register_duplicate_address_atomic
    { services := [svcA], byName := [("a", [svcA])] } svcDup (by decide) (by decide)
  exact ⟨h.1, h.2.2.2 svcB (by decide) (by decide) (by decide) (by decide)⟩

/-- C3: the registration endpoints answer a duplicate (name, host, port)
triple with 400, not 409 as the specification requires.  The registry
reports the collision with the message of duplicateAddress, which never
equals the literal the handler compares against, so the 409 branch is
dead code and the dispatch falls through to 400.  The record is not
added. -/
theorem duplicate_register_http_status_bug :
    (register regOne (buildServiceFromRegisterRequest reqDup "id-z" 0 true)).1 =
      some RegError.duplicateAddress ∧
    handleRegisterService regOne reqDup "id-z" 0 true = (400, regOne) ∧
    ¬ regErrorMessage RegError.duplicateAddress = duplicateCheckLiteral := by
  decide

/-- C5: routeToService hands the request to the proxy engine exactly when
getHealthy returns a non-empty list at the moment of the call; the target
is the base URL of the first healthy instance concatenated with the path,
and on an empty list it fails with the no-healthy-instances error without
invoking the proxy. -/
theorem route_to_service_first_healthy (r : Registry) (name path : String) :
    ((∃ target, routeToService r name path = .ok target) ↔ getHealthy r name ≠ []) ∧
    (getHealthy r name = [] →
      routeToService r name path =
        .error ("no healthy instances available for service: " ++ name)) ∧
    (∀ t ts, getHealthy r name = t :: ts →
      routeToService r name path = .ok (baseURL t ++ path)) := by
  refine ⟨?_, ?_, ?_⟩
  · constructor
    · rintro ⟨target, htgt⟩ hempty
      rw [routeToService, hempty] at htgt
      exact Except.noConfusion htgt
    · intro hne
      cases hh : getHealthy r name with
      | nil => exact absurd hh hne
      | cons t ts => exact ⟨baseURL t ++ path, by rw [routeToService, hh]⟩
  · intro hempty
    rw [routeToService, hempty]
  · intro t ts hh
    rw [routeToService, hh]

/-- Witness for C5: with the single healthy record svcA under name a the
resolver forwards to its base URL followed by the path. -/
theorem route_to_service_first_healthy_witness :
    routeToService regOne "a" "/x" = .ok (baseURL svcA ++ "/x") :=
  (route_to_service_first_healthy regOne "a" "/x").2.2 svcA [] (by decide)

theorem buildServiceFromSelfRegister_fields (req : SelfRegisterRequest)
    (freshId : String) (now : Nat) (probeOk : Bool) :
    (buildServiceFromSelfRegister req freshId now probeOk).id = freshId ∧
    (buildServiceFromSelfRegister req freshId now probeOk).name = req.name ∧
    (buildServiceFromSelfRegister req freshId now probeOk).host = req.host ∧
    (buildServiceFromSelfRegister req freshId now probeOk).port = req.port := by
  cases hm : req.metadata <;> cases probeOk <;>
    simp [buildServiceFromSelfRegister, newService, hm]

theorem findById_append_last (l : List Service) (svc : Service) (id : String)
    (hfresh : ∀ e ∈ l, e.id ≠ id) (hid : svc.id = id) :
    findById (l ++ [svc]) id = some svc := by
  induction l with
  | nil => simp [findById, List.find?, hid]
  | cons e rest ih =>
    have hne : ¬ e.id = id := hfresh e (by simp)
    have ihr := ih (fun x hx => hfresh x (by simp [hx]))
    simp only [findById, List.cons_append, List.find?] at ihr ⊢
    simp only [hne, decide_eq_true_eq, if_neg, decide_eq_false hne]
    exact ihr

theorem selfRegisterFinish_success (r : Registry) (req2 : SelfRegisterRequest)
    (freshId : String) (now : Nat) (probeOk : Bool)
    (hid : ∀ e ∈ r.services, e.id ≠ freshId)
    (htr : ∀ e ∈ r.services,
      ¬ (e.name = req2.name ∧ e.host = req2.host ∧ e.port = req2.port)) :
    (selfRegisterFinish r req2 freshId now probeOk).1 = (201, "") ∧
    findById (selfRegisterFinish r req2 freshId now probeOk).2.services freshId =
      some (buildServiceFromSelfRegister req2 freshId now probeOk) := by
  obtain ⟨hid2, hname, hhost, hport⟩ :=
    buildServiceFromSelfRegister_fields req2 freshId now probeOk
  have h1 : findById r.services (buildServiceFromSelfRegister req2 freshId now probeOk).id
      = none := by
    rw [hid2, findById, List.find?_eq_none]
    intro e he
    simp [hid e he]
  have h2 : r.services.any
      (fun existing => sameTriple existing (buildServiceFromSelfRegister req2 freshId now probeOk))
      = false := by
    rw [List.any_eq_false]
    intro e he hc
    simp only [sameTriple, Bool.and_eq_true, decide_eq_true_eq] at hc
    exact htr e he ⟨by rw [← hname]; exact hc.1.1, by rw [← hhost]; exact hc.1.2,
      by rw [← hport]; exact hc.2⟩
  have hreg : register r (buildServiceFromSelfRegister req2 freshId now probeOk) =
      (none, { services := r.services ++ [buildServiceFromSelfRegister req2 freshId now probeOk],
               byName := indexAppend r.byName
                 (buildServiceFromSelfRegister req2 freshId now probeOk).name
                 (buildServiceFromSelfRegister req2 freshId now probeOk) }) := by
    unfold register
    simp [h1, h2]
  constructor
  · rw [selfRegisterFinish, hreg]
  · rw [selfRegisterFinish, hreg]
    exact findById_append_last r.services _ freshId hid hid2

/-- C9: self-registration host auto-detection and port validation.  A
payload with port zero is answered 400 with the port-must-be-provided
message and the state is unchanged; a payload with empty host and a
non-zero port registers, when the generated id and resulting triple are
fresh, a record whose host is the first comma-separated X-Forwarded-For
token whitespace-trimmed when that header is present, else X-Real-IP when
present, else the transport remote address with its port segment
excluded. -/
theorem self_register_autodetect_and_port
    (r : Registry) (req : SelfRegisterRequest)
    (xff xri remoteAddr freshId : String) (now : Nat) (probeOk : Bool) :
    (req.port = 0 →
      handleSelfRegister r req xff xri remoteAddr freshId now probeOk =
        ((400, portMissingMessage), r)) ∧
    (req.host = "" → ¬ req.port = 0 →
      (∀ e ∈ r.services, e.id ≠ freshId) →
      (∀ e ∈ r.services,
        ¬ (e.name = req.name ∧ e.host = autoDetectHost xff xri remoteAddr ∧
           e.port = req.port)) →
      (handleSelfRegister r req xff xri remoteAddr freshId now probeOk).1 = (201, "") ∧
      (∃ svc,
        findById (handleSelfRegister r req xff xri remoteAddr freshId now probeOk).2.services
          freshId = some svc ∧
        svc.host = autoDetectHost xff xri remoteAddr ∧
        svc.name = req.name ∧ svc.port = req.port)) := by
  constructor
  · intro hp0
    simp [handleSelfRegister, hp0]
  · intro hh hp hid htr
    have hmain : handleSelfRegister r req xff xri remoteAddr freshId now probeOk =
        selfRegisterFinish r { req with host := autoDetectHost xff xri remoteAddr }
          freshId now probeOk := by
      simp [handleSelfRegister, hh, hp]
    obtain ⟨hst, hfind⟩ := selfRegisterFinish_success r
      { req with host := autoDetectHost xff xri remoteAddr } freshId now probeOk
      hid (by simpa using htr)
    obtain ⟨_, hname, hhost, hport⟩ := buildServiceFromSelfRegister_fields
      { req with host := autoDetectHost xff xri remoteAddr } freshId now probeOk
    refine ⟨by rw [hmain]; exact hst, ?_⟩
    refine ⟨buildServiceFromSelfRegister
      { req with host := autoDetectHost xff xri remoteAddr } freshId now probeOk,
      ?_, hhost, hname, hport⟩
    rw [hmain]
    exact hfind

/-- Witness for C9 at the S7 scenario: with the X-Forwarded-For chain the
created record has host 10.0.0.5; with no forwarding headers and remote
192.168.1.1:55555 it has host 192.168.1.1; and a port-zero payload is
answered 400. -/
theorem self_register_autodetect_and_port_witness :
    ((handleSelfRegister emptyRegistry reqSelf "10.0.0.5, 10.0.0.6" "" "" "id-x" 0 true).1
      = (201, "") ∧
     (∃ svc, findById
        (handleSelfRegister emptyRegistry reqSelf "10.0.0.5, 10.0.0.6" "" "" "id-x" 0 true).2.services
        "id-x" = some svc ∧ svc.host = "10.0.0.5")) ∧
    ((handleSelfRegister emptyRegistry reqSelf "" "" "192.168.1.1:55555" "id-x" 0 true).1
      = (201, "") ∧
     (∃ svc, findById
        (handleSelfRegister emptyRegistry reqSelf "" "" "192.168.1.1:55555" "id-x" 0 true).2.services
        "id-x" = some svc ∧ svc.host = "192.168.1.1")) ∧
    handleSelfRegister emptyRegistry { reqSelf with port := 0 } "" "" "" "id-x" 0 true =
      ((400, portMissingMessage), emptyRegistry) := by
  have hx : autoDetectHost "10.0.0.5, 10.0.0.6" "" "" = "10.0.0.5" := by decide
  have hr : autoDetectHost "" "" "192.168.1.1:55555" = "192.168.1.1" := by decide
  have h1 := (self_register_autodetect_and_port emptyRegistry reqSelf
    "10.0.0.5, 10.0.0.6" "" "" "id-x" 0 true).2 (by decide) (by decide)
    (by intro e he; simp [emptyRegistry] at he) (by intro e he; simp [emptyRegistry] at he)
  have h2 := (self_register_autodetect_and_port emptyRegistry reqSelf
    "" "" "192.168.1.1:55555" "id-x" 0 true).2 (by decide) (by decide)
    (by intro e he; simp [emptyRegistry] at he) (by intro e he; simp [emptyRegistry] at he)
  have h3 := (self_register_autodetect_and_port emptyRegistry
    { reqSelf with port := 0 } "" "" "" "id-x" 0 true).1 (by decide)
  refine ⟨⟨h1.1, ?_⟩, ⟨h2.1, ?_⟩, h3⟩
  · obtain ⟨svc, hfind, hhost, _, _⟩ := h1.2
    exact ⟨svc, hfind, by rw [hhost, hx]⟩
  · obtain ⟨svc, hfind, hhost, _, _⟩ := h2.2
    exact ⟨svc, hfind, by rw [hhost, hr]⟩

theorem splitFirstSpace_reconstruct (l a b : List Char)
    (h : splitFirstSpace l = some (a, b)) : l = a ++ ' ' :: b := by
  induction l generalizing a b with
  | nil => simp [splitFirstSpace] at h
  | cons c rest ih =>
    by_cases hc : c = ' '
    · rw [splitFirstSpace, if_pos hc] at h
      cases h
      simp [hc]
    · rw [splitFirstSpace, if_neg hc] at h
      cases hsp : splitFirstSpace rest with
      | none => rw [hsp] at h; exact Option.noConfusion h
      | some p =>
        rw [hsp] at h
        obtain ⟨a2, b2⟩ := p
        simp only [Option.some.injEq, Prod.mk.injEq] at h
        obtain ⟨ha, hb⟩ := h
        subst ha
        subst hb
        have hr := ih a2 b2 hsp
        rw [List.cons_append, ← hr]

theorem splitN2_bearer (t : String) :
    splitN2 ("Bearer " ++ t) = ["Bearer", t] := by
  cases t with
  | mk data =>
    show splitN2 ⟨"Bearer ".data ++ data⟩ = _
    simp [splitN2, splitFirstSpace]

theorem bearer_ne_empty (t : String) : ¬ ("Bearer " ++ t) = "" := by
  cases t with
  | mk l =>
    show ¬ (⟨"Bearer ".data ++ l⟩ : String) = ""
    intro h
    have hd : "Bearer ".data ++ l = [] := congrArg String.data h
    rcases List.append_eq_nil.mp hd with ⟨h1, _⟩
    exact absurd h1 (by decide)

/-- C7: the full decision table of the admin gate, reading the reject
status and error body of each row and the context values attached on a
valid admin verdict. -/
theorem admin_gate_decision_table (authHeader : String)
    (vr : Except String ValidateTokenResponse) :
    (authHeader = "" →
      adminGate authHeader vr = .reject 401 "missing authorization token") ∧
    (¬ authHeader = "" → (∀ t : String, ¬ authHeader = "Bearer " ++ t) →
      adminGate authHeader vr = .reject 401 "invalid authorization header") ∧
    (∀ t e, authHeader = "Bearer " ++ t → vr = .error e →
      adminGate authHeader vr = .reject 500 "authentication service unavailable") ∧
    (∀ t resp, authHeader = "Bearer " ++ t → vr = .ok resp → resp.valid = false →
      adminGate authHeader vr = .reject 401 "invalid or expired token") ∧
    (∀ t resp, authHeader = "Bearer " ++ t → vr = .ok resp → resp.valid = true →
      ¬ resp.user.roles.contains "admin" = true →
      adminGate authHeader vr = .reject 403 "admin access required") ∧
    (∀ t resp, authHeader = "Bearer " ++ t → vr = .ok resp → resp.valid = true →
      resp.user.roles.contains "admin" = true →
      adminGate authHeader vr =
        .allow resp.user.id resp.user.subject resp.user.roles resp.user.permissions) := by
  refine ⟨?_, ?_, ?_, ?_, ?_, ?_⟩
  · intro h
    simp [adminGate, authMiddleware, h]
  · intro hne hforall
    have hbad : ¬ ((splitN2 authHeader).length = 2 ∧
        (splitN2 authHeader).headD "" = "Bearer") := by
      rintro ⟨hlen, hhead⟩
      cases hsp : splitFirstSpace authHeader.data with
      | none => simp [splitN2, hsp] at hlen
      | some p =>
        obtain ⟨a, b⟩ := p
        have hh : (⟨a⟩ : String) = "Bearer" := by simpa [splitN2, hsp] using hhead
        have ha : a = "Bearer".data := congrArg String.data hh
        have hdata := splitFirstSpace_reconstruct authHeader.data a b hsp
        apply hforall ⟨b⟩
        cases authHeader with
        | mk l =>
          show (⟨l⟩ : String) = ⟨"Bearer ".data ++ b⟩
          have hl : l = a ++ ' ' :: b := hdata
          rw [hl, ha]
          rfl
    simp only [adminGate, authMiddleware]
    rw [if_neg hne, if_pos hbad]
  · intro t e hh hv
    subst hh
    subst hv
    simp [adminGate, authMiddleware, bearer_ne_empty t, splitN2_bearer]
  · intro t resp hh hv hval
    subst hh
    subst hv
    simp [adminGate, authMiddleware, bearer_ne_empty t, splitN2_bearer, hval]
  · intro t resp hh hv hval hroles
    subst hh
    subst hv
    have hm : ¬ "admin" ∈ resp.user.roles := by simpa using hroles
    simp [adminGate, authMiddleware, requireAdmin, bearer_ne_empty t, splitN2_bearer,
      hval, hm]
  · intro t resp hh hv hval hroles
    subst hh
    subst hv
    have hm : "admin" ∈ resp.user.roles := by simpa using hroles
    simp [adminGate, authMiddleware, requireAdmin, bearer_ne_empty t, splitN2_bearer,
      hval, hm]

/-- Witness for C7: every row of the decision table at concrete inputs,
matching scenario S6. -/
theorem admin_gate_decision_table_witness :
    adminGate "" (.ok respAdmin) = .reject 401 "missing authorization token" ∧
    adminGate "Token abc" (.ok respAdmin) = .reject 401 "invalid authorization header" ∧
    adminGate "Bearer T" (.error "connection refused") =
      .reject 500 "authentication service unavailable" ∧
    adminGate "Bearer Tbad" (.ok respExpired) = .reject 401 "invalid or expired token" ∧
    adminGate "Bearer T" (.ok respUser) = .reject 403 "admin access required" ∧
    adminGate "Bearer T" (.ok respAdmin) = .allow "u1" "alice" ["admin"] [] := by
  refine ⟨?_, ?_, ?_, ?_, ?_, ?_⟩
  · exact (admin_gate_decision_table "" (.ok respAdmin)).1 rfl
  · refine (admin_gate_decision_table "Token abc" (.ok respAdmin)).2.1 (by decide) ?_
    intro t h
    have hd : "Token abc".data = ("Bearer " ++ t).data := congrArg String.data h
    cases t with
    | mk l =>
      have hdl : "Token abc".data = "Bearer ".data ++ l := hd
      have h0 : (some 'T' : Option Char) = some 'B' := congrArg List.head? hdl
      exact absurd h0 (by decide)
  · exact (admin_gate_decision_table "Bearer T" (.error "connection refused")).2.2.1
      "T" "connection refused" rfl rfl
  · exact (admin_gate_decision_table "Bearer Tbad" (.ok respExpired)).2.2.2.1
      "Tbad" respExpired rfl rfl rfl
  · exact (admin_gate_decision_table "Bearer T" (.ok respUser)).2.2.2.2.1
      "T" respUser rfl rfl rfl (by decide)
  · exact (admin_gate_decision_table "Bearer T" (.ok respAdmin)).2.2.2.2.2
      "T" respAdmin rfl rfl rfl (by decide)

/-- C8 counterexample: a draining record whose probe answers 200 is moved
to healthy by the checker, because MarkHealthy sets the status
unconditionally; draining is therefore not terminal for the checker. -/
theorem draining_terminal_counterexample :
    svcDraining.status = .draining ∧
    (checkProbe svcDraining 3 9 1 (.response 200 "OK")).1.status = .healthy := by
  constructor
  · rfl
  · rfl

/-- C8 (amended): for a draining record the checker is not inert — a
2xx probe sets the status to healthy, and any failed probe (request
construction failure, transport failure, or non-2xx response) sets it to
unhealthy once the incremented failure count reaches the threshold and
leaves it draining below the threshold. -/
theorem draining_probe_transitions (svc : Service) (T : Int) (now : Nat)
    (elapsed : Int) (hdr : svc.status = .draining) :
    (∀ code body, 200 ≤ code → code < 300 →
      (checkProbe svc T now elapsed (.response code body)).1.status = .healthy) ∧
    (∀ msg, (checkProbe svc T now elapsed (.requestError msg)).1.status =
      (if svc.failureCount + 1 ≥ T then .unhealthy else .draining)) ∧
    (∀ msg, (checkProbe svc T now elapsed (.transportError msg)).1.status =
      (if svc.failureCount + 1 ≥ T then .unhealthy else .draining)) ∧
    (∀ code body, ¬ (200 ≤ code ∧ code < 300) →
      (checkProbe svc T now elapsed (.response code body)).1.status =
      (if svc.failureCount + 1 ≥ T then .unhealthy else .draining)) := by
  refine ⟨?_, ?_, ?_, ?_⟩
  · intro code body h1 h2
    simp [checkProbe, markHealthy, h1, h2]
  · intro msg
    by_cases hT : svc.failureCount + 1 ≥ T <;>
      simp [checkProbe, handleFailure, markUnhealthy, hT, hdr]
  · intro msg
    by_cases hT : svc.failureCount + 1 ≥ T <;>
      simp [checkProbe, handleFailure, markUnhealthy, hT, hdr]
  · intro code body hc
    by_cases hT : svc.failureCount + 1 ≥ T <;>
      simp [checkProbe, handleFailure, markUnhealthy, hT, hdr, hc]

/-- Witness for C8: the amended transitions at the concrete draining
record — recovery to healthy on 200, staying draining on a failure below
the threshold, and flipping to unhealthy at the threshold. -/
theorem draining_probe_transitions_witness :
    (checkProbe svcDraining 3 9 1 (.response 200 "OK")).1.status = .healthy ∧
    (checkProbe svcDraining 3 9 1 (.transportError "refused")).1.status = .draining ∧
    (checkProbe svcDraining 1 9 1 (.transportError "refused")).1.status = .unhealthy := by
  refine ⟨?_, ?_, ?_⟩
  · exact (draining_probe_transitions svcDraining 3 9 1 rfl).1 200 "OK"
      (by decide) (by decide)
  · have h := (draining_probe_transitions svcDraining 3 9 1 rfl).2.2.1 "refused"
    rw [h]
    decide
  · have h := (draining_probe_transitions svcDraining 1 9 1 rfl).2.2.1 "refused"
    rw [h]
    decide

theorem toNat_ofNat_valid (m : Nat) (h : m < 55296) : (Char.ofNat m).toNat = m := by
  have hv : m.isValidChar := Or.inl h
  rw [Char.ofNat, dif_pos hv]
  simp [Char.ofNatAux, Char.toNat, UInt32.toNat, BitVec.toNat_ofNatLt]

theorem toLower_toUpper_eq (c : Char) : c.toUpper.toLower = c.toLower := by
  simp only [Char.toUpper, Char.toLower]
  by_cases h : c.toNat ≥ 97 ∧ c.toNat ≤ 122
  · rw [if_pos h]
    have ht : (Char.ofNat (c.toNat - 32)).toNat = c.toNat - 32 :=
      toNat_ofNat_valid _ (by omega)
    have hcond : (Char.ofNat (c.toNat - 32)).toNat ≥ 65 ∧
        (Char.ofNat (c.toNat - 32)).toNat ≤ 90 := by
      rw [ht]
      omega
    rw [if_pos hcond, ht]
    have harith : c.toNat - 32 + 32 = c.toNat := by omega
    rw [harith, Char.ofNat_toNat, if_neg (by omega)]
  · rw [if_neg h]

theorem toLower_toLower_eq (c : Char) : c.toLower.toLower = c.toLower := by
  simp only [Char.toLower]
  by_cases h : c.toNat ≥ 65 ∧ c.toNat ≤ 90
  · rw [if_pos h]
    have ht : (Char.ofNat (c.toNat + 32)).toNat = c.toNat + 32 :=
      toNat_ofNat_valid _ (by omega)
    rw [if_neg (by rw [ht]; omega)]
  · rw [if_neg h, if_neg h]

theorem toLower_case_fold (upper : Bool) (c : Char) :
    (if upper then c.toUpper else c.toLower).toLower = c.toLower := by
  cases upper
  · simpa using toLower_toLower_eq c
  · simpa using toLower_toUpper_eq c

theorem toLowerChars_canonicalChars (upper : Bool) (l : List Char) :
    toLowerChars (canonicalChars upper l) = toLowerChars l := by
  induction l generalizing upper with
  | nil => rfl
  | cons c rest ih =>
    simp only [canonicalChars, toLowerChars, List.map]
    rw [toLower_case_fold]
    have := ih ((if upper then c.toUpper else c.toLower) == '-')
    simp only [toLowerChars] at this
    rw [this]

theorem lowerString_canonical (s : String) :
    lowerString (canonicalMIMEHeaderKey s) = lowerString s := by
  unfold canonicalMIMEHeaderKey
  by_cases h : s.data.all validHeaderFieldChar
  · rw [if_pos h]
    unfold lowerString
    rw [toLowerChars_canonicalChars]
  · rw [if_neg h]

theorem isHopByHop_canonical (s : String) :
    isHopByHopHeader (canonicalMIMEHeaderKey s) = isHopByHopHeader s := by
  unfold isHopByHopHeader
  rw [lowerString_canonical]

theorem assocUpd_key_mem {α : Type} (h : List (String × α)) (k : String)
    (f : α → α) (init : α) :
    ∀ kv ∈ assocUpd h k f init, kv.1 = k ∨ ∃ kv2 ∈ h, kv.1 = kv2.1 := by
  intro kv hkv
  unfold assocUpd at hkv
  by_cases hany : h.any (fun q => q.1 = k) = true
  · rw [if_pos hany] at hkv
    obtain ⟨q, hq, hmap⟩ := List.mem_map.mp hkv
    by_cases hqk : q.1 = k
    · left
      rw [← hmap]
      simp [hqk]
    · right
      exact ⟨q, hq, by rw [← hmap]; simp [hqk]⟩
  · rw [if_neg hany] at hkv
    rcases List.mem_append.mp hkv with hin | hnew
    · right
      exact ⟨kv, hin, rfl⟩
    · left
      simp only [List.mem_singleton] at hnew
      rw [hnew]

theorem keysNotHop_assocUpd (h : HeaderMap) (k : String)
    (f : List String → List String) (init : List String)
    (hk : isHopByHopHeader k = false) (hh : KeysNotHop h) :
    KeysNotHop (assocUpd h k f init) := by
  intro kv hkv
  rcases assocUpd_key_mem h k f init kv hkv with h1 | ⟨kv2, hkv2, heq⟩
  · rw [h1]
    exact hk
  · rw [heq]
    exact hh kv2 hkv2

theorem keysNotHop_headerAdd (h : HeaderMap) (key v : String)
    (hk : isHopByHopHeader key = false) (hh : KeysNotHop h) :
    KeysNotHop (headerAdd h key v) :=
  keysNotHop_assocUpd _ _ _ _ (by rw [isHopByHop_canonical]; exact hk) hh

theorem keysNotHop_headerSet (h : HeaderMap) (key v : String)
    (hk : isHopByHopHeader key = false) (hh : KeysNotHop h) :
    KeysNotHop (headerSet h key v) :=
  keysNotHop_assocUpd _ _ _ _ (by rw [isHopByHop_canonical]; exact hk) hh

theorem keysNotHop_addList (h : HeaderMap) (key : String) (vs : List String)
    (hk : isHopByHopHeader key = false) (hh : KeysNotHop h) :
    KeysNotHop (vs.foldl (fun a v => headerAdd a key v) h) := by
  induction vs generalizing h with
  | nil => exact hh
  | cons v rest ih =>
    exact ih _ (keysNotHop_headerAdd h key v hk hh)

theorem keysNotHop_copyFold (entries : HeaderMap) (acc : HeaderMap)
    (hh : KeysNotHop acc) : KeysNotHop (entries.foldl copyStep acc) := by
  induction entries generalizing acc with
  | nil => exact hh
  | cons kv rest ih =>
    rw [List.foldl_cons]
    apply ih
    unfold copyStep
    by_cases hop : isHopByHopHeader kv.1 = true
    · rw [if_pos hop]
      exact hh
    · rw [if_neg hop]
      have hk : isHopByHopHeader kv.1 = false := by
        cases hb : isHopByHopHeader kv.1
        · rfl
        · exact absurd hb hop
      exact keysNotHop_addList acc kv.1 kv.2 hk hh

theorem find?_map_upd {α : Type} (h : List (String × α)) (k k2 : String)
    (f : α → α) (hne : ¬ k2 = k) :
    (h.map (fun q => if q.1 = k then (q.1, f q.2) else q)).find? (fun q => q.1 = k2) =
      h.find? (fun q => q.1 = k2) := by
  induction h with
  | nil => rfl
  | cons q rest ih =>
    by_cases hq2 : q.1 = k2
    · have hqk : ¬ q.1 = k := by
        intro hc
        rw [hq2] at hc
        exact hne hc
      simp only [List.map]
      rw [if_neg hqk, List.find?_cons_of_pos _ (by simp [hq2]),
        List.find?_cons_of_pos _ (by simp [hq2])]
    · have hfst : (if q.1 = k then (q.1, f q.2) else q).1 = q.1 := by
        by_cases hqk : q.1 = k <;> simp [hqk]
      simp only [List.map]
      rw [List.find?_cons_of_neg _ (by simp [hfst, hq2]),
        List.find?_cons_of_neg _ (by simp [hq2])]
      exact ih

theorem assocLookup_assocUpd_ne {α : Type} (h : List (String × α)) (k k2 : String)
    (f : α → α) (init : α) (hne : ¬ k2 = k) :
    assocLookup (assocUpd h k f init) k2 = assocLookup h k2 := by
  unfold assocUpd
  by_cases hany : h.any (fun q => q.1 = k) = true
  · rw [if_pos hany]
    unfold assocLookup
    rw [find?_map_upd h k k2 f hne]
  · rw [if_neg hany]
    unfold assocLookup
    rw [List.find?_append]
    have hnew : ([((k, init) : String × α)].find? (fun q => q.1 = k2)) = none := by
      simp only [List.find?]
      have : ¬ k = k2 := fun hc => hne hc.symm
      simp [this]
    rw [hnew]
    cases h.find? (fun q => q.1 = k2) <;> rfl

theorem assocLookup_assocUpd_self {α : Type} (h : List (String × α)) (k : String)
    (f : α → α) (init : α) :
    assocLookup (assocUpd h k f init) k =
      match assocLookup h k with
      | some l => some (f l)
      | none => some init := by
  unfold assocUpd
  by_cases hany : h.any (fun q => q.1 = k) = true
  · rw [if_pos hany]
    induction h with
    | nil => simp at hany
    | cons q rest ih =>
      by_cases hqk : q.1 = k
      · unfold assocLookup
        simp [List.map, if_pos hqk, hqk]
      · have hany2 : rest.any (fun q => q.1 = k) = true := by
          simpa [List.any_cons, hqk] using hany
        have ihr := ih hany2
        unfold assocLookup at ihr ⊢
        simp only [List.map]
        rw [List.find?_cons_of_neg _ (by simp [hqk]),
          List.find?_cons_of_neg _ (by simp [hqk])]
        exact ihr
  · rw [if_neg hany]
    have hf : h.find? (fun q => q.1 = k) = none := by
      rw [List.find?_eq_none]
      intro q hq
      intro hc
      apply hany
      rw [List.any_eq_true]
      exact ⟨q, hq, hc⟩
    unfold assocLookup
    rw [List.find?_append, hf]
    simp [List.find?]

theorem assocLookup_headerAdd_ne (h : HeaderMap) (key v : String) (k2 : String)
    (hne : ¬ k2 = canonicalMIMEHeaderKey key) :
    assocLookup (headerAdd h key v) k2 = assocLookup h k2 :=
  assocLookup_assocUpd_ne h _ k2 _ _ hne

theorem assocLookup_addList_some (acc : HeaderMap) (key : String) (vs : List String)
    (l : List String) (hcanon : canonicalMIMEHeaderKey key = key)
    (hacc : assocLookup acc key = some l) :
    assocLookup (vs.foldl (fun a v => headerAdd a key v) acc) key = some (l ++ vs) := by
  induction vs generalizing acc l with
  | nil => simpa using hacc
  | cons v rest ih =>
    rw [List.foldl_cons]
    have hstep : assocLookup (headerAdd acc key v) key = some (l ++ [v]) := by
      unfold headerAdd
      rw [hcanon, assocLookup_assocUpd_self, hacc]
    have := ih (headerAdd acc key v) (l ++ [v]) hstep
    rw [this]
    simp

theorem assocLookup_addList_none (acc : HeaderMap) (key v : String) (vs : List String)
    (hcanon : canonicalMIMEHeaderKey key = key)
    (hacc : assocLookup acc key = none) :
    assocLookup ((v :: vs).foldl (fun a v2 => headerAdd a key v2) acc) key =
      some (v :: vs) := by
  rw [List.foldl_cons]
  have hstep : assocLookup (headerAdd acc key v) key = some [v] := by
    unfold headerAdd
    rw [hcanon, assocLookup_assocUpd_self, hacc]
  have := assocLookup_addList_some (headerAdd acc key v) key vs [v] hcanon hstep
  rw [this]
  simp

theorem assocLookup_addList_ne (acc : HeaderMap) (key : String) (vs : List String)
    (k2 : String) (hne : ¬ k2 = canonicalMIMEHeaderKey key) :
    assocLookup (vs.foldl (fun a v => headerAdd a key v) acc) k2 = assocLookup acc k2 := by
  induction vs generalizing acc with
  | nil => rfl
  | cons v rest ih =>
    rw [List.foldl_cons, ih, assocLookup_headerAdd_ne acc key v k2 hne]

theorem assocLookup_headerSet_ne (h : HeaderMap) (key v k2 : String)
    (hne : ¬ k2 = canonicalMIMEHeaderKey key) :
    assocLookup (headerSet h key v) k2 = assocLookup h k2 :=
  assocLookup_assocUpd_ne h _ k2 _ _ hne

theorem assocLookup_copyFold_preserve (entries : HeaderMap) (acc : HeaderMap) (k : String)
    (hdiff : ∀ kv ∈ entries, ¬ k = canonicalMIMEHeaderKey kv.1) :
    assocLookup (entries.foldl copyStep acc) k = assocLookup acc k := by
  induction entries generalizing acc with
  | nil => rfl
  | cons kv rest ih =>
    rw [List.foldl_cons,
      ih (copyStep acc kv) (fun kv2 h2 => hdiff kv2 (List.mem_cons_of_mem kv h2))]
    unfold copyStep
    by_cases hop : isHopByHopHeader kv.1 = true
    · rw [if_pos hop]
    · rw [if_neg hop]
      exact assocLookup_addList_ne acc kv.1 kv.2 k (hdiff kv (List.mem_cons_self kv rest))

theorem assocLookup_copyFold_mem (entries : HeaderMap) :
    ∀ (acc : HeaderMap) (k : String) (vs : List String),
      (∀ kv ∈ entries, canonicalMIMEHeaderKey kv.1 = kv.1) →
      (entries.map Prod.fst).Nodup →
      (k, vs) ∈ entries →
      isHopByHopHeader k = false →
      ¬ vs = [] →
      assocLookup acc k = none →
      assocLookup (entries.foldl copyStep acc) k = some vs := by
  induction entries with
  | nil =>
    intro acc k vs _ _ hmem _ _ _
    simp at hmem
  | cons kv rest ih =>
    intro acc k vs hcanon hnodup hmem hnothop hvs hacc
    have hnodup2 : (kv.1 :: rest.map Prod.fst).Nodup := by simpa using hnodup
    rcases List.nodup_cons.mp hnodup2 with ⟨hnotin, hnodup3⟩
    rw [List.foldl_cons]
    rcases List.mem_cons.mp hmem with heq | hrest
    · have hcank : canonicalMIMEHeaderKey k = k := by
        have hc := hcanon kv (List.mem_cons_self kv rest)
        rw [← heq] at hc
        exact hc
      have hstep : assocLookup (copyStep acc kv) k = some vs := by
        rw [← heq]
        unfold copyStep
        simp only [← heq]
        rw [hnothop, if_neg (by simp)]
        cases vs with
        | nil => exact absurd rfl hvs
        | cons v vs2 => exact assocLookup_addList_none acc k v vs2 hcank hacc
      have hdiff : ∀ kv2 ∈ rest, ¬ k = canonicalMIMEHeaderKey kv2.1 := by
        intro kv2 h2 hc
        have hc2 : canonicalMIMEHeaderKey kv2.1 = kv2.1 :=
          hcanon kv2 (List.mem_cons_of_mem kv h2)
        rw [hc2] at hc
        apply hnotin
        have hk1 : kv.1 = k := by rw [← heq]
        rw [hk1, hc]
        exact List.mem_map_of_mem Prod.fst h2
      rw [assocLookup_copyFold_preserve rest (copyStep acc kv) k hdiff]
      exact hstep
    · have hkne : ¬ kv.1 = k := by
        intro hc
        apply hnotin
        rw [hc]
        exact List.mem_map_of_mem Prod.fst hrest
      have haccstep : assocLookup (copyStep acc kv) k = none := by
        unfold copyStep
        by_cases hop : isHopByHopHeader kv.1 = true
        · rw [if_pos hop]
          exact hacc
        · rw [if_neg hop]
          rw [assocLookup_addList_ne acc kv.1 kv.2 k ?hne]
          · exact hacc
          case hne =>
            rw [hcanon kv (List.mem_cons_self kv rest)]
            intro hc
            exact hkne hc.symm
      exact ih (copyStep acc kv) k vs
        (fun kv2 h2 => hcanon kv2 (List.mem_cons_of_mem kv h2))
        hnodup3 hrest hnothop hvs haccstep

/-- C6 counterexample: an inbound X-Forwarded-Proto header is not
hop-by-hop, yet the outbound request does not carry it verbatim — the
forwarding-header step overwrites it with the inbound scheme. -/
theorem hop_headers_verbatim_counterexample :
    isHopByHopHeader "X-Forwarded-Proto" = false ∧
    assocLookup reqXFPOverwrite.header "X-Forwarded-Proto" = some ["https"] ∧
    assocLookup (createProxyRequestHeaders reqXFPOverwrite) "X-Forwarded-Proto" =
      some ["http"] := by
  decide

/-- C6 (amended): the outbound request of createProxyRequest carries no
hop-by-hop header key whatever letter case the inbound request used; and
every non-hop-by-hop inbound header other than the forwarding headers
X-Forwarded-For, X-Forwarded-Proto and X-Forwarded-Host appears on the
outbound request verbatim, for inbound header maps with canonical,
duplicate-free keys and non-empty value lists as the Go parser produces
them. -/
theorem proxy_header_discipline (original : InboundRequest) :
    (∀ kv ∈ createProxyRequestHeaders original, isHopByHopHeader kv.1 = false) ∧
    ((∀ kv ∈ original.header, canonicalMIMEHeaderKey kv.1 = kv.1) →
      (original.header.map Prod.fst).Nodup →
      ∀ k vs, (k, vs) ∈ original.header → isHopByHopHeader k = false → ¬ vs = [] →
        ¬ k = "X-Forwarded-For" → ¬ k = "X-Forwarded-Proto" → ¬ k = "X-Forwarded-Host" →
        assocLookup (createProxyRequestHeaders original) k = some vs) := by
  constructor
  · unfold createProxyRequestHeaders
    have h0 : KeysNotHop (copyHeaders original.header) :=
      keysNotHop_copyFold original.header [] (by intro kv hkv; simp at hkv)
    have h1 : KeysNotHop
        (if ¬ original.remoteAddr = "" then
          headerSet (copyHeaders original.header) "X-Forwarded-For" original.remoteAddr
        else copyHeaders original.header) := by
      by_cases hr : ¬ original.remoteAddr = ""
      · rw [if_pos hr]
        exact keysNotHop_headerSet _ _ _ (by decide) h0
      · rw [if_neg hr]
        exact h0
    have h2 : KeysNotHop (headerSet
        (if ¬ original.remoteAddr = "" then
          headerSet (copyHeaders original.header) "X-Forwarded-For" original.remoteAddr
        else copyHeaders original.header) "X-Forwarded-Proto" original.scheme) :=
      keysNotHop_headerSet _ _ _ (by decide) h1
    by_cases hh : ¬ original.host = ""
    · rw [if_pos hh]
      exact keysNotHop_headerSet _ _ _ (by decide) h2
    · rw [if_neg hh]
      exact h2
  · intro hcanon hnodup k vs hmem hnothop hvs hxf hxp hxh
    unfold createProxyRequestHeaders
    have hcopy : assocLookup (copyHeaders original.header) k = some vs :=
      assocLookup_copyFold_mem original.header [] k vs hcanon hnodup hmem hnothop hvs rfl
    have exf : canonicalMIMEHeaderKey "X-Forwarded-For" = "X-Forwarded-For" := by decide
    have exp : canonicalMIMEHeaderKey "X-Forwarded-Proto" = "X-Forwarded-Proto" := by decide
    have exh : canonicalMIMEHeaderKey "X-Forwarded-Host" = "X-Forwarded-Host" := by decide
    have h1 : assocLookup
        (if ¬ original.remoteAddr = "" then
          headerSet (copyHeaders original.header) "X-Forwarded-For" original.remoteAddr
        else copyHeaders original.header) k = some vs := by
      by_cases hr : ¬ original.remoteAddr = ""
      · rw [if_pos hr, assocLookup_headerSet_ne _ _ _ _ (by rw [exf]; exact hxf)]
        exact hcopy
      · rw [if_neg hr]
        exact hcopy
    have h2 := assocLookup_headerSet_ne
      (if ¬ original.remoteAddr = "" then
        headerSet (copyHeaders original.header) "X-Forwarded-For" original.remoteAddr
      else copyHeaders original.header)
      "X-Forwarded-Proto" original.scheme k (by rw [exp]; exact hxp)
    by_cases hh : ¬ original.host = ""
    · rw [if_pos hh, assocLookup_headerSet_ne _ _ _ _ (by rw [exh]; exact hxh), h2]
      exact h1
    · rw [if_neg hh, h2]
      exact h1

/-- Witness for C6 at the S5 scenario: Authorization and X-Custom pass
verbatim while Connection is stripped. -/
theorem proxy_header_discipline_witness :
    assocLookup (createProxyRequestHeaders reqS5) "X-Custom" = some ["ok"] ∧
    assocLookup (createProxyRequestHeaders reqS5) "Authorization" = some ["Bearer T"] ∧
    assocLookup (createProxyRequestHeaders reqS5) "Connection" = none := by
  have h := (proxy_header_discipline reqS5).2 (by decide) (by decide)
  refine ⟨?_, ?_, by decide⟩
  · exact h "X-Custom" ["ok"] (by decide) (by decide) (by decide)
      (by decide) (by decide) (by decide)
  · exact h "Authorization" ["Bearer T"] (by decide) (by decide) (by decide)
      (by decide) (by decide) (by decide)

theorem findById_eq_none_iff (l : List Service) (id : String) :
    findById l id = none ↔ ∀ s ∈ l, ¬ s.id = id := by
  rw [findById, List.find?_eq_none]
  constructor <;> intro h s hs <;> simpa using h s hs

theorem findById_append_of_found (l1 : List Service) (svc s : Service)
    (id : String) (h : findById l1 id = some s) :
    findById (l1 ++ [svc]) id = some s := by
  rw [findById] at h ⊢
  rw [List.find?_append, h]
  rfl

theorem assocLookup_some_mem {α : Type} (h : List (String × α)) (k : String)
    (v : α) (hl : assocLookup h k = some v) : ∃ q ∈ h, q.1 = k ∧ q.2 = v := by
  unfold assocLookup at hl
  cases hf : h.find? (fun q => q.1 = k) with
  | none =>
    rw [hf] at hl
    exact Option.noConfusion hl
  | some q =>
    rw [hf] at hl
    exact ⟨q, List.mem_of_find?_eq_some hf, by simpa using List.find?_some hf,
      Option.some.inj hl⟩

theorem assocLookup_any {α : Type} (h : List (String × α)) (k : String) (v : α)
    (hl : assocLookup h k = some v) : h.any (fun q => q.1 = k) = true := by
  obtain ⟨q, hq, hqk, _⟩ := assocLookup_some_mem h k v hl
  rw [List.any_eq_true]
  exact ⟨q, hq, by simpa using hqk⟩

theorem mem_assocUpd_ne_key {α : Type} (h : List (String × α)) (k : String)
    (f : α → α) (init : α) :
    ∀ kv ∈ assocUpd h k f init, ¬ kv.1 = k → kv ∈ h := by
  intro kv hkv hne
  unfold assocUpd at hkv
  by_cases hany : h.any (fun q => q.1 = k) = true
  · rw [if_pos hany] at hkv
    obtain ⟨q, hq, hmap⟩ := List.mem_map.mp hkv
    by_cases hqk : q.1 = k
    · rw [if_pos hqk] at hmap
      rw [← hmap] at hne
      exact absurd hqk hne
    · rw [if_neg hqk] at hmap
      rw [← hmap]
      exact hq
  · rw [if_neg hany] at hkv
    rcases List.mem_append.mp hkv with hin | hnew
    · exact hin
    · simp only [List.mem_singleton] at hnew
      rw [hnew] at hne
      exact absurd rfl hne

theorem mem_assocUpd_self_key {α : Type} (h : List (String × α)) (k : String)
    (f : α → α) (init : α) :
    ∀ kv ∈ assocUpd h k f init, kv.1 = k →
      (∃ kv2 ∈ h, kv2.1 = k ∧ kv.2 = f kv2.2) ∨ kv.2 = init := by
  intro kv hkv hk
  unfold assocUpd at hkv
  by_cases hany : h.any (fun q => q.1 = k) = true
  · rw [if_pos hany] at hkv
    obtain ⟨q, hq, hmap⟩ := List.mem_map.mp hkv
    by_cases hqk : q.1 = k
    · rw [if_pos hqk] at hmap
      left
      exact ⟨q, hq, hqk, by rw [← hmap]⟩
    · rw [if_neg hqk] at hmap
      rw [← hmap] at hk
      exact absurd hk hqk
  · rw [if_neg hany] at hkv
    rcases List.mem_append.mp hkv with hin | hnew
    · exfalso
      rw [Bool.not_eq_true, List.any_eq_false] at hany
      have hc := hany kv hin
      simp only [decide_eq_true_eq] at hc
      exact hc hk
    · simp only [List.mem_singleton] at hnew
      right
      rw [hnew]

theorem assocUpd_keys_of_any {α : Type} (h : List (String × α)) (k : String)
    (f : α → α) (init : α) (hany : h.any (fun q => q.1 = k) = true) :
    (assocUpd h k f init).map Prod.fst = h.map Prod.fst := by
  unfold assocUpd
  rw [if_pos hany, List.map_map]
  apply List.map_congr_left
  intro q _
  by_cases hqk : q.1 = k <;> simp [hqk]

theorem assocUpd_keys_of_not_any {α : Type} (h : List (String × α)) (k : String)
    (f : α → α) (init : α) (hany : ¬ h.any (fun q => q.1 = k) = true) :
    (assocUpd h k f init).map Prod.fst = h.map Prod.fst ++ [k] := by
  unfold assocUpd
  rw [if_neg hany]
  simp

theorem assocUpd_keys_nodup {α : Type} (h : List (String × α)) (k : String)
    (f : α → α) (init : α) (hnodup : (h.map Prod.fst).Nodup) :
    ((assocUpd h k f init).map Prod.fst).Nodup := by
  by_cases hany : h.any (fun q => q.1 = k) = true
  · rw [assocUpd_keys_of_any h k f init hany]
    exact hnodup
  · rw [assocUpd_keys_of_not_any h k f init hany]
    rw [List.nodup_append]
    refine ⟨hnodup, by simp, ?_⟩
    intro a ha hb
    simp only [List.mem_singleton] at hb
    rw [hb] at ha
    obtain ⟨q, hq, hqk⟩ := List.mem_map.mp ha
    apply hany
    rw [List.any_eq_true]
    exact ⟨q, hq, by simpa using hqk⟩

theorem removeFirstById_spec (l : List Service) (id : String)
    (h : l.any (fun s => s.id = id) = true) :
    ∃ l1 e l2, l = l1 ++ e :: l2 ∧ e.id = id ∧ (∀ x ∈ l1, ¬ x.id = id) ∧
      removeFirstById l id = l1 ++ l2 := by
  induction l with
  | nil => simp at h
  | cons s rest ih =>
    by_cases hs : s.id = id
    · exact ⟨[], s, rest, by simp, hs, by simp, by simp [removeFirstById, hs]⟩
    · have h2 : rest.any (fun s => s.id = id) = true := by
        simpa [List.any_cons, hs] using h
      obtain ⟨l1, e, l2, hl, he, hl1, hrm⟩ := ih h2
      refine ⟨s :: l1, e, l2, by simp [hl], he, ?_, ?_⟩
      · intro x hx
        rcases List.mem_cons.mp hx with hxs | hx1
        · rw [hxs]
          exact hs
        · exact hl1 x hx1
      · simp [removeFirstById, hs, hrm]

theorem findById_filter_ne (l : List Service) (id sid : String)
    (hne : ¬ sid = id) :
    findById (l.filter (fun s => ¬ s.id = id)) sid = findById l sid := by
  induction l with
  | nil => rfl
  | cons s rest ih =>
    simp only [findById] at ih ⊢
    by_cases hs : s.id = id
    · have hssid : ¬ s.id = sid := by
        rw [hs]
        intro hc
        exact hne hc.symm
      rw [List.filter_cons, if_neg (by simp [hs]),
        List.find?_cons_of_neg _ (by simp [hssid])]
      exact ih
    · rw [List.filter_cons, if_pos (by simp [hs])]
      by_cases hsid : s.id = sid
      · rw [List.find?_cons_of_pos _ (by simp [hsid]),
          List.find?_cons_of_pos _ (by simp [hsid])]
      · rw [List.find?_cons_of_neg _ (by simp [hsid]),
          List.find?_cons_of_neg _ (by simp [hsid])]
        exact ih

theorem assocLookup_filter_ne {α : Type} (h : List (String × α)) (k k2 : String)
    (hne : ¬ k2 = k) :
    assocLookup (h.filter (fun q => ¬ q.1 = k)) k2 = assocLookup h k2 := by
  induction h with
  | nil => rfl
  | cons q rest ih =>
    simp only [assocLookup] at ih ⊢
    by_cases hq : q.1 = k
    · have hq2 : ¬ q.1 = k2 := by
        rw [hq]
        intro hc
        exact hne hc.symm
      rw [List.filter_cons, if_neg (by simp [hq]),
        List.find?_cons_of_neg _ (by simp [hq2])]
      exact ih
    · rw [List.filter_cons, if_pos (by simp [hq])]
      by_cases hqk2 : q.1 = k2
      · rw [List.find?_cons_of_pos _ (by simp [hqk2]),
          List.find?_cons_of_pos _ (by simp [hqk2])]
      · rw [List.find?_cons_of_neg _ (by simp [hqk2]),
          List.find?_cons_of_neg _ (by simp [hqk2])]
        exact ih

theorem findById_map_g (l : List Service) (g : Service → Service)
    (hg : ∀ s, (g s).id = s.id) (sid : String) :
    findById (l.map g) sid = (findById l sid).map g := by
  induction l with
  | nil => rfl
  | cons s rest ih =>
    by_cases hs : s.id = sid
    · rw [List.map_cons, findById, findById,
        List.find?_cons_of_pos _ (by simp [hg, hs]),
        List.find?_cons_of_pos _ (by simpa using hs)]
      rfl
    · rw [List.map_cons, findById, findById,
        List.find?_cons_of_neg _ (by simp [hg, hs]),
        List.find?_cons_of_neg _ (by simpa using hs)]
      exact ih

theorem assocLookup_map_val {α β : Type} (h : List (String × α)) (m : α → β)
    (k : String) :
    assocLookup (h.map (fun q => (q.1, m q.2))) k = (assocLookup h k).map m := by
  induction h with
  | nil => rfl
  | cons q rest ih =>
    by_cases hq : q.1 = k
    · rw [List.map_cons, assocLookup, assocLookup,
        List.find?_cons_of_pos _ (by simpa using hq),
        List.find?_cons_of_pos _ (by simpa using hq)]
      rfl
    · rw [List.map_cons, assocLookup, assocLookup,
        List.find?_cons_of_neg _ (by simpa using hq),
        List.find?_cons_of_neg _ (by simpa using hq)]
      exact ih

theorem registryInv_insert (r : Registry) (svc : Service)
    (hinv : RegistryInv r) (hfresh : findById r.services svc.id = none) :
    RegistryInv { services := r.services ++ [svc],
                  byName := indexAppend r.byName svc.name svc } := by
  obtain ⟨hid, hkey, hnemp, hfile, hres, honce⟩ := hinv
  have hfresh2 : ∀ e ∈ r.services, ¬ e.id = svc.id :=
    (findById_eq_none_iff r.services svc.id).mp hfresh
  refine ⟨?_, ?_, ?_, ?_, ?_, ?_⟩
  · rw [List.map_append, List.nodup_append]
    refine ⟨hid, by simp, ?_⟩
    intro a ha hb
    simp only [List.map_cons, List.map_nil, List.mem_singleton] at hb
    obtain ⟨e, he, heid⟩ := List.mem_map.mp ha
    exact hfresh2 e he (heid.trans hb)
  · show ((assocUpd r.byName svc.name (fun l => l ++ [svc]) [svc]).map Prod.fst).Nodup
    exact assocUpd_keys_nodup r.byName svc.name _ _ hkey
  · intro q hq
    simp only [indexAppend] at hq
    by_cases hqk : q.1 = svc.name
    · rcases mem_assocUpd_self_key r.byName svc.name _ _ q hq hqk with
        ⟨kv2, _, _, hval⟩ | hval
      · rw [hval]
        simp
      · rw [hval]
        simp
    · exact hnemp q (mem_assocUpd_ne_key r.byName svc.name _ _ q hq hqk)
  · intro q hq s hs
    simp only [indexAppend] at hq
    by_cases hqk : q.1 = svc.name
    · rcases mem_assocUpd_self_key r.byName svc.name _ _ q hq hqk with
        ⟨kv2, hkv2, hkv2k, hval⟩ | hval
      · rw [hval] at hs
        rcases List.mem_append.mp hs with hs1 | hs2
        · rw [hqk, ← hkv2k]
          exact hfile kv2 hkv2 s hs1
        · simp only [List.mem_singleton] at hs2
          rw [hs2, hqk]
      · rw [hval] at hs
        simp only [List.mem_singleton] at hs
        rw [hs, hqk]
    · exact hfile q (mem_assocUpd_ne_key r.byName svc.name _ _ q hq hqk) s hs
  · intro q hq s hs
    simp only [indexAppend] at hq
    by_cases hqk : q.1 = svc.name
    · rcases mem_assocUpd_self_key r.byName svc.name _ _ q hq hqk with
        ⟨kv2, hkv2, _, hval⟩ | hval
      · rw [hval] at hs
        rcases List.mem_append.mp hs with hs1 | hs2
        · exact findById_append_of_found r.services svc s s.id (hres kv2 hkv2 s hs1)
        · simp only [List.mem_singleton] at hs2
          rw [hs2]
          exact findById_append_last r.services svc svc.id hfresh2 rfl
      · rw [hval] at hs
        simp only [List.mem_singleton] at hs
        rw [hs]
        exact findById_append_last r.services svc svc.id hfresh2 rfl
    · exact findById_append_of_found r.services svc s s.id
        (hres q (mem_assocUpd_ne_key r.byName svc.name _ _ q hq hqk) s hs)
  · intro svc0 hsvc0
    simp only [indexAppend]
    rcases List.mem_append.mp hsvc0 with hold | hnew
    · obtain ⟨l, hl, hcount⟩ := honce svc0 hold
      by_cases hname : svc0.name = svc.name
      · rw [hname] at hl ⊢
        refine ⟨l ++ [svc], ?_, ?_⟩
        · rw [assocLookup_assocUpd_self, hl]
        · rw [List.countP_append, hcount]
          have hne0 : ¬ svc.id = svc0.id := by
            intro hc
            exact hfresh2 svc0 hold hc.symm
          simp [List.countP_cons, hne0]
      · refine ⟨l, ?_, hcount⟩
        rw [assocLookup_assocUpd_ne r.byName svc.name svc0.name _ _ hname]
        exact hl
    · simp only [List.mem_singleton] at hnew
      rw [hnew]
      cases hl0 : assocLookup r.byName svc.name with
      | some l0 =>
        refine ⟨l0 ++ [svc], ?_, ?_⟩
        · rw [assocLookup_assocUpd_self, hl0]
        · have hzero : l0.countP (fun s => s.id = svc.id) = 0 := by
            rw [List.countP_eq_zero]
            intro s hsl0
            obtain ⟨q, hq, _, hqv⟩ := assocLookup_some_mem r.byName svc.name l0 hl0
            have hrs := hres q hq s (by rw [hqv]; exact hsl0)
            intro hc
            simp only [decide_eq_true_eq] at hc
            rw [hc] at hrs
            rw [hfresh] at hrs
            exact Option.noConfusion hrs
          rw [List.countP_append, hzero]
          simp [List.countP_cons]
      | none =>
        refine ⟨[svc], ?_, ?_⟩
        · rw [assocLookup_assocUpd_self, hl0]
        · simp [List.countP_cons]

theorem registryInv_empty : RegistryInv emptyRegistry := by
  refine ⟨by simp [emptyRegistry], by simp [emptyRegistry],
    ?_, ?_, ?_, ?_⟩ <;> intro x hx <;> simp [emptyRegistry] at hx

theorem registryInv_register (r : Registry) (svc : Service)
    (hinv : RegistryInv r) : RegistryInv (register r svc).2 := by
  unfold register
  by_cases h1 : (findById r.services svc.id).isSome
  · simpa [h1] using hinv
  · by_cases h2 : r.services.any (fun existing => sameTriple existing svc) = true
    · simpa [h1, h2] using hinv
    · simp only [h1, h2, Bool.false_eq_true, if_false, if_neg]
      exact registryInv_insert r svc hinv (Option.not_isSome_iff_eq_none.mp h1)

theorem registryInv_updateStatus (r : Registry) (id : String) (st : Status)
    (hinv : RegistryInv r) : RegistryInv (updateStatus r id st).2 := by
  obtain ⟨hid, hkey, hnemp, hfile, hres, honce⟩ := hinv
  unfold updateStatus
  by_cases h1 : (findById r.services id).isSome
  · simp only [h1, if_true]
    have hgid : ∀ s : Service, (if s.id = id then setStatus s st else s).id = s.id := by
      intro s
      by_cases hs : s.id = id <;> simp [hs, setStatus]
    have hgname : ∀ s : Service,
        (if s.id = id then setStatus s st else s).name = s.name := by
      intro s
      by_cases hs : s.id = id <;> simp [hs, setStatus]
    refine ⟨?_, ?_, ?_, ?_, ?_, ?_⟩
    · have hmap : (r.services.map (fun s => if s.id = id then setStatus s st else s)).map
          (fun s => s.id) = r.services.map (fun s => s.id) := by
        rw [List.map_map]
        apply List.map_congr_left
        intro s _
        exact hgid s
      rw [hmap]
      exact hid
    · have hmap : (r.byName.map (fun q =>
          (q.1, q.2.map (fun s => if s.id = id then setStatus s st else s)))).map
          Prod.fst = r.byName.map Prod.fst := by
        rw [List.map_map]
        apply List.map_congr_left
        intro q _
        rfl
      rw [hmap]
      exact hkey
    · intro q hq
      obtain ⟨q0, hq0, hq0eq⟩ := List.mem_map.mp hq
      rw [← hq0eq]
      intro hc
      simp only [List.map_eq_nil_iff] at hc
      exact hnemp q0 hq0 hc
    · intro q hq s hs
      obtain ⟨q0, hq0, hq0eq⟩ := List.mem_map.mp hq
      rw [← hq0eq] at hs ⊢
      obtain ⟨s0, hs0, hs0eq⟩ := List.mem_map.mp hs
      rw [← hs0eq, hgname s0]
      exact hfile q0 hq0 s0 hs0
    · intro q hq s hs
      obtain ⟨q0, hq0, hq0eq⟩ := List.mem_map.mp hq
      rw [← hq0eq] at hs
      obtain ⟨s0, hs0, hs0eq⟩ := List.mem_map.mp hs
      rw [← hs0eq, findById_map_g r.services _ hgid, hgid s0, hres q0 hq0 s0 hs0]
      rfl
    · intro svc0 hsvc0
      obtain ⟨s0, hs0, hs0eq⟩ := List.mem_map.mp hsvc0
      obtain ⟨l, hl, hcount⟩ := honce s0 hs0
      refine ⟨l.map (fun s => if s.id = id then setStatus s st else s), ?_, ?_⟩
      · rw [← hs0eq, hgname s0, assocLookup_map_val, hl]
        rfl
      · rw [← hs0eq, hgid s0, List.countP_map, ← hcount]
        apply List.countP_congr
        intro a _
        simp [Function.comp, hgid a]
  · simpa [h1] using ⟨hid, hkey, hnemp, hfile, hres, honce⟩

theorem loadStep_fresh (r : Registry) (svc : Service)
    (hfresh : findById r.services svc.id = none) :
    loadStep r svc = { services := r.services ++ [svc],
                       byName := indexAppend r.byName svc.name svc } := by
  have hany : r.services.any (fun s => s.id = svc.id) = false := by
    rw [List.any_eq_false]
    intro s hsv
    simpa using (findById_eq_none_iff r.services svc.id).mp hfresh s hsv
  unfold loadStep
  simp only [hany, Bool.false_eq_true, if_false]

theorem registryInv_load_aux (rows : List Service) :
    ∀ r : Registry, RegistryInv r →
      (∀ s ∈ rows, findById r.services s.id = none) →
      (rows.map (fun s => s.id)).Nodup →
      RegistryInv (rows.foldl loadStep r) := by
  induction rows with
  | nil =>
    intro r hinv _ _
    exact hinv
  | cons row rest ih =>
    intro r hinv hdisj hnodup
    rw [List.foldl_cons]
    have hfresh : findById r.services row.id = none :=
      hdisj row (List.mem_cons_self row rest)
    rw [loadStep_fresh r row hfresh]
    have hnodup2 : (row.id :: rest.map (fun s => s.id)).Nodup := by simpa using hnodup
    rcases List.nodup_cons.mp hnodup2 with ⟨hnotin, hnodup3⟩
    apply ih
    · exact registryInv_insert r row hinv hfresh
    · intro s hs
      have h1 : findById r.services s.id = none :=
        hdisj s (List.mem_cons_of_mem row hs)
      have h2 : ¬ row.id = s.id := by
        intro hc
        apply hnotin
        rw [hc]
        exact List.mem_map_of_mem _ hs
      rw [findById, List.find?_append]
      rw [findById] at h1
      rw [h1]
      simp [List.find?, h2]
    · exact hnodup3

theorem registryInv_deregister (r : Registry) (id : String)
    (hinv : RegistryInv r) : RegistryInv (deregister r id).2 := by
  obtain ⟨hid, hkey, hnemp, hfile, hres, honce⟩ := hinv
  cases hfind : findById r.services id with
  | none =>
    unfold deregister
    rw [hfind]
    exact ⟨hid, hkey, hnemp, hfile, hres, honce⟩
  | some svc =>
    have hsvcmem : svc ∈ r.services := List.mem_of_find?_eq_some hfind
    have hsvcid : svc.id = id := by simpa using List.find?_some hfind
    obtain ⟨l, hl, hcount⟩ := honce svc hsvcmem
    rw [hsvcid] at hcount
    have hinst : indexGet r.byName svc.name = l := by
      unfold indexGet
      rw [hl]
      rfl
    have hanyl : l.any (fun s => s.id = id) = true := by
      rw [List.any_eq_true]
      have hpos : 0 < l.countP (fun s => s.id = id) := by
        rw [hcount]
        exact Nat.one_pos
      obtain ⟨a, ha, hpa⟩ := List.countP_pos.mp hpos
      exact ⟨a, ha, hpa⟩
    obtain ⟨l1, e, l2, hldecomp, heid, hl1no, hrm⟩ := removeFirstById_spec l id hanyl
    have hck : l1.countP (fun s => s.id = id) = 0 ∧
        l2.countP (fun s => s.id = id) = 0 := by
      rw [hldecomp, List.countP_append, List.countP_cons] at hcount
      simp [heid] at hcount
      omega
    have hremno : ∀ x ∈ l1 ++ l2, ¬ x.id = id := by
      intro x hx
      rcases List.mem_append.mp hx with hx1 | hx2
      · have := List.countP_eq_zero.mp hck.1 x hx1
        simpa using this
      · have := List.countP_eq_zero.mp hck.2 x hx2
        simpa using this
    have hrem_sub : ∀ x ∈ l1 ++ l2, x ∈ l := by
      intro x hx
      rw [hldecomp]
      rcases List.mem_append.mp hx with hx1 | hx2
      · exact List.mem_append_left _ hx1
      · exact List.mem_append_right _ (List.mem_cons_of_mem e hx2)
    obtain ⟨q0, hq0, hq0k, hq0v⟩ := assocLookup_some_mem r.byName svc.name l hl
    have hl_elem : ∀ s ∈ l, findById r.services s.id = some s := by
      intro s hs
      exact hres q0 hq0 s (by rw [hq0v]; exact hs)
    have hl_names : ∀ s ∈ l, s.name = svc.name := by
      intro s hs
      rw [← hq0k]
      exact hfile q0 hq0 s (by rw [hq0v]; exact hs)
    have hother : ∀ q ∈ r.byName, ¬ q.1 = svc.name → ∀ s ∈ q.2, ¬ s.id = id := by
      intro q hq hqname s hs hsid
      have hr1 := hres q hq s hs
      rw [hsid, hfind] at hr1
      have hse : svc = s := Option.some.inj hr1
      apply hqname
      rw [← hfile q hq s hs, ← hse]
    have hany_inst : (indexGet r.byName svc.name).any (fun s => s.id = id) = true := by
      rw [hinst]
      exact hanyl
    have hget2 : indexGet (indexSet r.byName svc.name (l1 ++ l2)) svc.name = l1 ++ l2 := by
      unfold indexGet indexSet
      rw [assocLookup_assocUpd_self, hl]
      rfl
    have hdereg : deregister r id =
        (none, { services := r.services.filter (fun s => ¬ s.id = id),
                 byName := if l1 ++ l2 = [] then
                     (indexSet r.byName svc.name (l1 ++ l2)).filter
                       (fun q => ¬ q.1 = svc.name)
                   else indexSet r.byName svc.name (l1 ++ l2) }) := by
      unfold deregister
      rw [hfind]
      simp only [hinst, hanyl, if_true, hrm, hget2]
    rw [hdereg]
    show RegistryInv
      { services := r.services.filter (fun s => ¬ s.id = id),
        byName := if l1 ++ l2 = [] then
            (indexSet r.byName svc.name (l1 ++ l2)).filter
              (fun q => ¬ q.1 = svc.name)
          else indexSet r.byName svc.name (l1 ++ l2) }
    -- facts about the updated index entry
    have hB1mem_self : ∀ q ∈ indexSet r.byName svc.name (l1 ++ l2),
        q.1 = svc.name → q.2 = l1 ++ l2 := by
      intro q hq hqk
      rcases mem_assocUpd_self_key r.byName svc.name _ _ q hq hqk with
        ⟨_, _, _, hval⟩ | hval
      · exact hval
      · exact hval
    have hB1mem_other : ∀ q ∈ indexSet r.byName svc.name (l1 ++ l2),
        ¬ q.1 = svc.name → q ∈ r.byName :=
      fun q hq hqk => mem_assocUpd_ne_key r.byName svc.name _ _ q hq hqk
    have hB1keys : ((indexSet r.byName svc.name (l1 ++ l2)).map Prod.fst).Nodup := by
      show ((assocUpd r.byName svc.name _ _).map Prod.fst).Nodup
      rw [assocUpd_keys_of_any r.byName svc.name _ _
        (assocLookup_any r.byName svc.name l hl)]
      exact hkey
    have hids : ((r.services.filter (fun s => ¬ s.id = id)).map
        (fun s => s.id)).Nodup :=
      hid.sublist ((List.filter_sublist _).map _)
    have hfilter_mem : ∀ s, s ∈ r.services.filter (fun s => ¬ s.id = id) →
        s ∈ r.services ∧ ¬ s.id = id := by
      intro s hs
      have h1 := List.of_mem_filter hs
      exact ⟨List.mem_of_mem_filter hs, by simpa using h1⟩
    have hres_filter : ∀ s ∈ r.services, ¬ s.id = id →
        findById (r.services.filter (fun s2 => ¬ s2.id = id)) s.id = some s := by
      intro s hs hsid
      rw [findById_filter_ne r.services id s.id hsid]
      -- findById r.services s.id = some s from nodup ids
      cases hfb : findById r.services s.id with
      | none =>
        exfalso
        exact ((findById_eq_none_iff r.services s.id).mp hfb) s hs rfl
      | some s2 =>
        have hs2mem : s2 ∈ r.services := List.mem_of_find?_eq_some hfb
        have hs2id : s2.id = s.id := by simpa using List.find?_some hfb
        have heq : s2 = s := List.inj_on_of_nodup_map hid hs2mem hs hs2id
        rw [heq]
    by_cases hrem : l1 ++ l2 = []
    · rw [if_pos hrem]
      refine ⟨hids, ?_, ?_, ?_, ?_, ?_⟩
      · exact hB1keys.sublist ((List.filter_sublist _).map _)
      · intro q hq
        have hqk : ¬ q.1 = svc.name := by simpa using List.of_mem_filter hq
        exact hnemp q (hB1mem_other q (List.mem_of_mem_filter hq) hqk)
      · intro q hq s hs
        have hqk : ¬ q.1 = svc.name := by simpa using List.of_mem_filter hq
        exact hfile q (hB1mem_other q (List.mem_of_mem_filter hq) hqk) s hs
      · intro q hq s hs
        have hqk : ¬ q.1 = svc.name := by simpa using List.of_mem_filter hq
        have hqmem := hB1mem_other q (List.mem_of_mem_filter hq) hqk
        have hsid : ¬ s.id = id := hother q hqmem hqk s hs
        rw [findById_filter_ne r.services id s.id hsid]
        exact hres q hqmem s hs
      · intro svc0 hsvc0
        obtain ⟨hsvc0mem, hsvc0id⟩ := hfilter_mem svc0 hsvc0
        obtain ⟨l0, hl0, hcount0⟩ := honce svc0 hsvc0mem
        by_cases hname : svc0.name = svc.name
        · exfalso
          rw [hname, hl] at hl0
          have hl0l : l0 = l := (Option.some.inj hl0).symm
          rw [hl0l] at hcount0
          have hpos0 : 0 < l.countP (fun s => s.id = svc0.id) := by
            rw [hcount0]
            exact Nat.one_pos
          obtain ⟨a, ha, hpa⟩ := List.countP_pos.mp hpos0
          rcases List.append_eq_nil.mp hrem with ⟨h1nil, h2nil⟩
          rw [hldecomp, h1nil, h2nil] at ha
          simp only [List.nil_append, List.mem_singleton] at ha
          rw [ha] at hpa
          simp only [decide_eq_true_eq] at hpa
          rw [heid] at hpa
          exact hsvc0id hpa.symm
        · refine ⟨l0, ?_, hcount0⟩
          rw [assocLookup_filter_ne _ svc.name svc0.name hname]
          show assocLookup (assocUpd r.byName svc.name _ _) svc0.name = some l0
          rw [assocLookup_assocUpd_ne r.byName svc.name svc0.name _ _ hname]
          exact hl0
    · rw [if_neg hrem]
      refine ⟨hids, hB1keys, ?_, ?_, ?_, ?_⟩
      · intro q hq
        by_cases hqk : q.1 = svc.name
        · rw [hB1mem_self q hq hqk]
          exact hrem
        · exact hnemp q (hB1mem_other q hq hqk)
      · intro q hq s hs
        by_cases hqk : q.1 = svc.name
        · rw [hB1mem_self q hq hqk] at hs
          rw [hqk]
          exact hl_names s (hrem_sub s hs)
        · exact hfile q (hB1mem_other q hq hqk) s hs
      · intro q hq s hs
        by_cases hqk : q.1 = svc.name
        · rw [hB1mem_self q hq hqk] at hs
          exact hres_filter s (hl_elem s (hrem_sub s hs) |> List.mem_of_find?_eq_some)
            (hremno s hs)
        · have hqmem := hB1mem_other q hq hqk
          have hsid : ¬ s.id = id := hother q hqmem hqk s hs
          rw [findById_filter_ne r.services id s.id hsid]
          exact hres q hqmem s hs
      · intro svc0 hsvc0
        obtain ⟨hsvc0mem, hsvc0id⟩ := hfilter_mem svc0 hsvc0
        obtain ⟨l0, hl0, hcount0⟩ := honce svc0 hsvc0mem
        by_cases hname : svc0.name = svc.name
        · refine ⟨l1 ++ l2, ?_, ?_⟩
          · rw [hname]
            show assocLookup (indexSet r.byName svc.name (l1 ++ l2)) svc.name =
              some (l1 ++ l2)
            unfold indexSet
            rw [assocLookup_assocUpd_self, hl]
          · rw [hname, hl] at hl0
            have hl0l : l0 = l := (Option.some.inj hl0).symm
            rw [hl0l] at hcount0
            have hne0 : ¬ e.id = svc0.id := by
              rw [heid]
              intro hc
              exact hsvc0id hc.symm
            rw [← hcount0, hldecomp, List.countP_append, List.countP_append,
              List.countP_cons]
            simp [hne0]
        · refine ⟨l0, ?_, hcount0⟩
          show assocLookup (indexSet r.byName svc.name (l1 ++ l2)) svc0.name = some l0
          unfold indexSet
          rw [assocLookup_assocUpd_ne r.byName svc.name svc0.name _ _ hname]
          exact hl0

/-- C10: every registry operation preserves index consistency — the name
index agrees with the id map after construction with load (for rows whose
ids are distinct, as the primary key guarantees), Register, Deregister
and UpdateStatus. -/
theorem registry_index_consistency :
    (∀ rows : List Service, (rows.map (fun s => s.id)).Nodup →
      RegistryInv (newRegistry rows)) ∧
    (∀ r svc, RegistryInv r → RegistryInv (register r svc).2) ∧
    (∀ r id, RegistryInv r → RegistryInv (deregister r id).2) ∧
    (∀ r id st, RegistryInv r → RegistryInv (updateStatus r id st).2) := by
  refine ⟨?_, ?_, ?_, ?_⟩
  · intro rows hnodup
    exact registryInv_load_aux rows emptyRegistry registryInv_empty
      (fun s _ => rfl) hnodup
  · exact registryInv_register
  · exact registryInv_deregister
  · exact registryInv_updateStatus

/-- Witness for C10: the invariant after registering svcB into the
one-record state, and after loading two rows with distinct ids. -/
theorem registry_index_consistency_witness :
    RegistryInv (register regOne svcB).2 ∧
    RegistryInv (newRegistry [svcA, svcB]) := by
  have hr1 : RegistryInv regOne := by
    refine ⟨by decide, by decide, by decide, by decide, by decide, ?_⟩
    intro svc hsvc
    simp only [regOne, List.mem_singleton] at hsvc
    subst hsvc
    exact ⟨[svcA], by decide, by decide⟩
  exact ⟨registry_index_consistency.2.1 regOne svcB hr1,
    registry_index_consistency.1 [svcA, svcB] (by decide)⟩

end Hermes
